import Mathlib

/-!
Verification development for the DaVinci Fusion macro editor's
parse / reconstruct / regenerate pipeline.

The JavaScript sources (parser.js, writer.js, script.js) are shallowly
embedded: text is modelled as `List Char`, JavaScript objects become
structures, regex scans become explicit character scanners with the same
leftmost-match semantics, and the tree mutation performed by the writer
(assignment of `internalKey` on `GROUP` nodes) is modelled by returning an
updated tree alongside the generated text.

String literals write every brace as an escape so that the text is
unambiguous.
-/

/-- Text is modelled as a list of characters (JavaScript string). -/
abbrev Str := List Char

/-- Convert a Lean string literal to the text model. -/
def strS (s : String) : Str := s.toList

/-- JavaScript `\s` character class, restricted to the code points that
occur in this family of files (ASCII whitespace plus NBSP and BOM). -/
def isJsSpace (c : Char) : Bool :=
  c = ' ' || c = '\t' || c = '\n' || c = '\r' || c = '\x0b' || c = '\x0c' ||
  c = '\u00A0' || c = '\uFEFF'

/-- JavaScript `\w` / `[a-zA-Z0-9_]` character class. -/
def isWordChar (c : Char) : Bool :=
  c.isAlpha || c.isDigit || c = '_'

/-- JavaScript `String.prototype.trim` on the text model. -/
def trimS (s : Str) : Str :=
  ((s.dropWhile isJsSpace).reverse.dropWhile isJsSpace).reverse

/-- Decimal digit run to a number (JavaScript `parseInt` with radix 10 on
an all-digit capture). -/
def natOfDigits (l : Str) : Nat :=
  l.foldl (fun a c => a * 10 + (c.toNat - 48)) 0

/-- One step of decimal rendering; the fuel dominates the digit count
(any fuel above `n` is enough). -/
def natStrGo : Nat → Nat → Str
  | 0, _ => []
  | fuel + 1, n =>
    if n < 10 then [Nat.digitChar n]
    else natStrGo fuel (n / 10) ++ [Nat.digitChar (n % 10)]

/-- Decimal rendering of a number (template-literal interpolation of a
JavaScript number with an integral value). -/
def natStr (n : Nat) : Str := natStrGo (n + 1) n

/-- First index `i` in `s` (0-based) such that `pat` occurs at `i`;
`none` when there is no occurrence.  This is JavaScript
`String.prototype.indexOf` returning `-1` as `none`. -/
def idxOfAux (pat : Str) : Str → Option Nat
  | [] => if pat.isPrefixOf [] then some 0 else none
  | c :: rest =>
    if pat.isPrefixOf (c :: rest) then some 0
    else (idxOfAux pat rest).map Nat.succ

/-- JavaScript `content.indexOf(pat, start)`. -/
def idxOfFrom (content pat : Str) (start : Nat) : Option Nat :=
  (idxOfAux pat (content.drop start)).map (· + start)

/-- Scan `rest` (which sits at absolute index `i` of the enclosing text)
for the brace that brings the depth `d` down to zero; returns the absolute
index of that closing brace.  This is the depth loop shared by
`findBlockContent` in parser.js and writer.js. -/
def scanClose (d : Nat) (i : Nat) : Str → Option Nat
  | [] => none
  | c :: rest =>
    if c = '\x7b' then scanClose (d + 1) (i + 1) rest
    else if c = '\x7d' then
      if d = 1 then some i else scanClose (d - 1) (i + 1) rest
    else scanClose d (i + 1) rest

/-- A balanced-brace block located inside a text: the content between the
braces, the index of the block's start marker, and the index one past the
closing brace. -/
structure Block where
  content : Str
  startIndex : Nat
  endIndex : Nat
  deriving Repr, DecidableEq

/-- parser.js/writer.js `findBlockContent`: find `blockStartMarker`
starting at `startIndex`, then take the balanced-brace span that follows
it (the marker text ends with the opening brace). -/
def findBlockContent (content blockStartMarker : Str) (startIndex : Nat) :
    Option Block :=
  match idxOfFrom content blockStartMarker startIndex with
  | none => none
  | some startMarkerIndex =>
    let blockContentStartIndex := startMarkerIndex + blockStartMarker.length
    match scanClose 1 blockContentStartIndex
        (content.drop blockContentStartIndex) with
    | none => none
    | some blockEndIndex =>
      some ⟨(content.drop blockContentStartIndex).take
              (blockEndIndex - blockContentStartIndex),
            startMarkerIndex, blockEndIndex + 1⟩

/-- Inner walk of `findTopLevelBlock`: `i` is the absolute index of the
head of `rest` in `body`, `depth` the brace depth before reading it.  The
depth is updated first (with a floor at zero, as `Math.max(0, depth - 1)`),
then a header match is attempted at depth zero. -/
def ftlbGo (body header : Str) : Nat → Nat → Str → Option Block
  | _, _, [] => none
  | i, depth, c :: rest =>
    let depth' :=
      if c = '\x7b' then depth + 1
      else if c = '\x7d' then depth - 1
      else depth
    if depth' = 0 && header.isPrefixOf (c :: rest) then
      match idxOfFrom body ['\x7b'] (i + header.length - 1) with
      | none => none
      | some bracePos =>
        match scanClose 1 (bracePos + 1) (body.drop (bracePos + 1)) with
        | none => none
        | some close =>
          some ⟨(body.drop (bracePos + 1)).take (close - (bracePos + 1)),
                i, close + 1⟩
    else ftlbGo body header (i + 1) depth' rest

/-- parser.js/writer.js `findTopLevelBlock`: locate `header` at brace
depth zero of `body` and return its balanced-brace block.  An empty
`body` is falsy in JavaScript and yields `none`. -/
def findTopLevelBlock (body header : Str) : Option Block :=
  if body = [] then none
  else ftlbGo body header 0 0 body

/-- writer.js `findFirstTopLevelBlock`: first header of the list that
resolves to a block. -/
def findFirstTopLevelBlock (body : Str) : List Str → Option Block
  | [] => none
  | h :: hs =>
    match findTopLevelBlock body h with
    | some blk => some blk
    | none => findFirstTopLevelBlock body hs

/-- Number of occurrences (all start positions) of `pat` in `s`. -/
def countOccur (pat : Str) : Str → Nat
  | [] => 0
  | c :: rest =>
    (if pat.isPrefixOf (c :: rest) then 1 else 0) + countOccur pat rest

/-! ## Property extraction (parser.js `propsRegex`)

Properties are JavaScript objects built by repeated assignment.  A key can
be assigned `undefined` (when the quoted alternative captures an empty
string and the `||` chain falls through), which we model as storing
`none`; reads collapse that to "absent", exactly as every read in the
source does (truthiness tests, `===` comparisons and `Map.has`). -/

/-- A JavaScript property object: insertion-ordered keys, each bound to a
defined string or to `undefined` (`none`). -/
abbrev Props := List (Str × Option Str)

/-- Object property assignment `props[k] = v` (overwrites in place). -/
def setProp (props : Props) (k : Str) (v : Option Str) : Props :=
  if props.any (fun p => p.1 = k) then
    props.map (fun p => if p.1 = k then (k, v) else p)
  else props ++ [(k, v)]

/-- Object property read `props[k]`; an absent key and a key bound to
`undefined` both give `none`. -/
def getProp (props : Props) (k : Str) : Option Str :=
  match props.find? (fun p => p.1 = k) with
  | some p => p.2
  | none => none

/-- JavaScript `delete props[k]`. -/
def delProp (props : Props) (k : Str) : Props :=
  props.filter (fun p => p.1 ≠ k)

/-- The bare-token alternative `[^,}\s]+` of the property-value pattern. -/
def bareValue (s : Str) : Option (Option Str × Nat) :=
  let r := s.takeWhile (fun c => !(c = ',' || c = '\x7d' || isJsSpace c))
  if r = [] then none else some (some r, r.length)

/-- Value alternation `(?:"([^"]*)"|({[^}]*})|([^,}\s]+))` at the head of
`s`; returns the stored value (`none` for the empty quoted capture, which
the `||` chain in the source turns into `undefined`) and the number of
characters consumed. -/
def matchPropValue (s : Str) : Option (Option Str × Nat) :=
  match s with
  | '"' :: rest =>
    let q := rest.takeWhile (fun c => c ≠ '"')
    if q.length < rest.length then
      some (if q = [] then none else some q, q.length + 2)
    else bareValue s
  | '\x7b' :: rest =>
    let b := rest.takeWhile (fun c => c ≠ '\x7d')
    if b.length < rest.length then
      some (some ('\x7b' :: (b ++ ['\x7d'])), b.length + 2)
    else bareValue s
  | _ => bareValue s

/-- One match of `(\w+)\s*=\s*<value>` anchored at the head of `s`:
key, stored value, and total match length. -/
def matchPropAt (s : Str) : Option (Str × Option Str × Nat) :=
  let w := s.takeWhile isWordChar
  if w = [] then none else
  let r1 := s.drop w.length
  let sp1 := r1.takeWhile isJsSpace
  match r1.drop sp1.length with
  | '=' :: r2 =>
    let sp2 := r2.takeWhile isJsSpace
    match matchPropValue (r2.drop sp2.length) with
    | none => none
    | some (v, vlen) =>
      some (w, v, w.length + sp1.length + 1 + sp2.length + vlen)
  | _ => none

/-- Global scan of the property pattern over a declaration body, with the
`lastIndex` semantics of `RegExp.exec` (the next search starts right after
the previous match).  Fuel is the remaining text length plus one. -/
def extractPropsGo : Nat → Str → Props → Props
  | 0, _, acc => acc
  | _ + 1, [], acc => acc
  | fuel + 1, c :: rest, acc =>
    match matchPropAt (c :: rest) with
    | none => extractPropsGo fuel rest acc
    | some (k, v, mlen) =>
      extractPropsGo fuel ((c :: rest).drop mlen) (setProp acc k v)

/-- parser.js property extraction over one declaration's body. -/
def extractProps (s : Str) : Props := extractPropsGo (s.length + 1) s []

/-! ## Pass 1a: scanning the inputs region for `InstanceInput` declarations -/

/-- One raw declaration as collected by Pass 1 of `parseSettingFile`:
already classified as separator (`Source = "Separator"`) or control. -/
structure RawControl where
  isSep : Bool
  key : Str
  properties : Props
  originalBlock : Str
  deriving Repr, DecidableEq

/-- One match of `([a-zA-Z0-9_]+)\s*=\s*InstanceInput\s*{` anchored at the
head of `s`: key and match length (the match ends at its opening brace). -/
def matchInstanceInputAt (s : Str) : Option (Str × Nat) :=
  let w := s.takeWhile isWordChar
  if w = [] then none else
  let r1 := s.drop w.length
  let sp1 := r1.takeWhile isJsSpace
  match r1.drop sp1.length with
  | '=' :: r2 =>
    let sp2 := r2.takeWhile isJsSpace
    let r3 := r2.drop sp2.length
    if (strS ("InstanceInput")).isPrefixOf r3 then
      let r4 := r3.drop 13
      let sp3 := r4.takeWhile isJsSpace
      match r4.drop sp3.length with
      | '\x7b' :: _ =>
        some (w, w.length + sp1.length + 1 + sp2.length + 13 + sp3.length + 1)
      | _ => none
    else none
  | _ => none

/-- Scan loop of Pass 1a (`instanceInputRegex` with `exec`): on a match,
the declaration block is the balanced-brace span opened by the matched
brace; scanning resumes immediately after the match (after the opening
brace), exactly as `lastIndex` does.  Fuel is text length plus one. -/
def collectInputsGo : Nat → Str → List RawControl
  | 0, _ => []
  | _ + 1, [] => []
  | fuel + 1, c :: rest =>
    match matchInstanceInputAt (c :: rest) with
    | none => collectInputsGo fuel rest
    | some (key, mlen) =>
      match findBlockContent (c :: rest) ['\x7b'] (mlen - 1) with
      | none => collectInputsGo fuel ((c :: rest).drop mlen)
      | some blk =>
        let properties := extractProps blk.content
        let fullOriginalBlock := trimS ((c :: rest).take blk.endIndex)
        let isSep := getProp properties (strS ("Source")) = some (strS ("Separator"))
        ⟨isSep, key, properties, fullOriginalBlock⟩ ::
          collectInputsGo fuel ((c :: rest).drop mlen)

/-- Pass 1a of `parseSettingFile`: all `InstanceInput` declarations of the
inputs region, in scan order. -/
def collectInstanceInputs (s : Str) : List RawControl :=
  collectInputsGo (s.length + 1) s

/-! ## Pass 1b: page-marker inference -/

/-- A flat item of the parser: page markers interleaved with the
declarations (`SEPARATOR_DATA` / `CONTROL_DATA`). -/
inductive FlatItem where
  | pageMarker (name : Str)
  | separatorData (key : Str) (properties : Props) (originalBlock : Str)
  | controlData (key : Str) (properties : Props) (originalBlock : Str)
  deriving Repr, DecidableEq

/-- JavaScript truthiness of a possibly-undefined string value. -/
def truthyO : Option Str → Bool
  | some v => !v.isEmpty
  | none => false

/-- Re-tag a raw declaration as its flat item, with its (possibly
page-stripped) property object. -/
def rawToFlat (it : RawControl) (props : Props) : FlatItem :=
  if it.isSep then .separatorData it.key props it.originalBlock
  else .controlData it.key props it.originalBlock

/-- Pass 1b of `parseSettingFile` (the `firstControl` loop): walk the
declarations, emit a `PAGE_MARKER` when the truthy `Page` value differs
from the current page (`"Controls"` on the first declaration), update the
current page, and delete a truthy `Page` property before emitting the
declaration itself. -/
def pageAnnotateGo : Bool → Str → List RawControl → List FlatItem
  | _, _, [] => []
  | firstControl, currentPageName, item :: rest =>
    let pp := getProp item.properties (strS ("Page"))
    let props' :=
      if truthyO pp then delProp item.properties (strS ("Page"))
      else item.properties
    let emitMarker :=
      if firstControl then truthyO pp && (pp != some (strS ("Controls")))
      else truthyO pp && (pp != some currentPageName)
    if emitMarker then
      .pageMarker (pp.getD []) :: rawToFlat item props' ::
        pageAnnotateGo false (pp.getD []) rest
    else
      rawToFlat item props' :: pageAnnotateGo false currentPageName rest

/-- The flat list of Pass 1: markers inferred starting from the implicit
default page `"Controls"`. -/
def pageAnnotate (items : List RawControl) : List FlatItem :=
  pageAnnotateGo true (strS ("Controls")) items

/-! ## Pass 2: helper-node metadata -/

/-- One metadata descriptor: display name, nesting depth
(`LBLC_NestLevel`) and subtree size (`LBLC_NumInputs`). -/
structure MetaEntry where
  name : Str
  nestLevel : Nat
  childCount : Nat
  deriving Repr, DecidableEq

/-- The helper metadata `Map`, insertion-ordered with overwriting `set`. -/
abbrev MetaMap := List (Str × MetaEntry)

/-- `Map.prototype.set`. -/
def setMeta (m : MetaMap) (k : Str) (v : MetaEntry) : MetaMap :=
  if m.any (fun p => p.1 = k) then
    m.map (fun p => if p.1 = k then (k, v) else p)
  else m ++ [(k, v)]

/-- `Map.prototype.get` (with `has` as `isSome`). -/
def findMeta (m : MetaMap) (k : Str) : Option MetaEntry :=
  (m.find? (fun p => p.1 = k)).map (fun p => p.2)

/-- Generic first-match scan: try the anchored matcher at every start
position, left to right (leftmost-match regex semantics). -/
def scanFirst {α : Type} (f : Str → Option α) : Str → Option α
  | [] => none
  | c :: rest =>
    match f (c :: rest) with
    | some v => some v
    | none => scanFirst f rest

/-- Anchored match of `/LINKS_Name\s*=\s*"([^"]+)"/`. -/
def matchLinksNameAt (s : Str) : Option Str :=
  if (strS ("LINKS_Name")).isPrefixOf s then
    let r1 := s.drop 10
    let sp1 := r1.takeWhile isJsSpace
    match r1.drop sp1.length with
    | '=' :: r2 =>
      let sp2 := r2.takeWhile isJsSpace
      match r2.drop sp2.length with
      | '"' :: r3 =>
        let q := r3.takeWhile (fun c => c ≠ '"')
        if q = [] then none
        else if q.length < r3.length then some q else none
      | _ => none
    | _ => none
  else none

/-- Anchored match of `/<label>\s*=\s*(\d+)/`. -/
def matchNatPropAt (label : Str) (s : Str) : Option Nat :=
  if label.isPrefixOf s then
    let r1 := s.drop label.length
    let sp1 := r1.takeWhile isJsSpace
    match r1.drop sp1.length with
    | '=' :: r2 =>
      let sp2 := r2.takeWhile isJsSpace
      let d := (r2.drop sp2.length).takeWhile Char.isDigit
      if d = [] then none else some (natOfDigits d)
    | _ => none
  else none

/-- Anchored match of `/(AutoLabel\d+)\s*=\s*{([^}]+)}/`: the key, the
brace-delimited descriptor text, and the match length. -/
def matchAutoLabelAt (s : Str) : Option (Str × Str × Nat) :=
  if (strS ("AutoLabel")).isPrefixOf s then
    let r0 := s.drop 9
    let d := r0.takeWhile Char.isDigit
    if d = [] then none else
    let r1 := r0.drop d.length
    let sp1 := r1.takeWhile isJsSpace
    match r1.drop sp1.length with
    | '=' :: r2 =>
      let sp2 := r2.takeWhile isJsSpace
      match r2.drop sp2.length with
      | '\x7b' :: r3 =>
        let b := r3.takeWhile (fun c => c ≠ '\x7d')
        if b = [] then none
        else if b.length < r3.length then
          some (strS ("AutoLabel") ++ d, b,
            9 + d.length + sp1.length + 1 + sp2.length + 1 + b.length + 1)
        else none
      | _ => none
    | _ => none
  else none

/-- Pass 2 scan loop over the `UserControls` body: every `AutoLabel<N>`
descriptor updates the maximum index; a descriptor contributes a metadata
entry only when all three of name, nest level and input count parse. -/
def readUserControlsGo : Nat → Str → MetaMap → Nat → (MetaMap × Nat)
  | 0, _, m, mx => (m, mx)
  | _ + 1, [], m, mx => (m, mx)
  | fuel + 1, c :: rest, m, mx =>
    match matchAutoLabelAt (c :: rest) with
    | none => readUserControlsGo fuel rest m mx
    | some (key, propertiesText, mlen) =>
      let n := natOfDigits (key.drop 9)
      let mx' := max mx n
      let m' :=
        match scanFirst matchLinksNameAt propertiesText,
            scanFirst (matchNatPropAt (strS ("LBLC_NestLevel"))) propertiesText,
            scanFirst (matchNatPropAt (strS ("LBLC_NumInputs"))) propertiesText with
        | some nm, some nl, some ni => setMeta m key ⟨nm, nl, ni⟩
        | _, _, _ => m
      readUserControlsGo fuel ((c :: rest).drop mlen) m' mx'

/-- Pass 2 of `parseSettingFile` over the `UserControls` body. -/
def readUserControls (s : Str) : MetaMap × Nat :=
  readUserControlsGo (s.length + 1) s [] 0

/-! ## Pass 3: tree reconstruction (`buildTreeRecursive`)

The JavaScript builder mutates `parent.children` and — for page markers —
`root.children`, while recursing into each group's spliced-off window of
the queue.  We model one call as a list of push events: `toParent`
entries are appended to the current parent's children and `toRoot`
entries to the root's children, in execution order.  At the root both
series target the same array, so the root's children are the events in
order.  Node identities (`nextId++`) are threaded explicitly. -/

/-- Per-declaration data captured on a node (`node.data`). -/
structure CtrlData where
  key : Str
  originalBlock : Str
  properties : Props
  deriving Repr, DecidableEq

/-- A node of the reconstructed tree (the implicit `ROOT` node is the
surrounding `List PNode` of its children).  `renamed` models the
`__renamed` flag the editor sets on a control's data. -/
inductive PNode where
  | page (id : Nat) (name : Str)
  | separator (id : Nat) (data : CtrlData) (hidden : Bool)
  | control (id : Nat) (data : CtrlData) (hidden : Bool) (renamed : Bool)
  | group (id : Nat) (name : Str) (internalKey : Option Str)
      (data : Option CtrlData) (children : List PNode)
  deriving Repr

/-- A push event of the builder. -/
inductive BEntry where
  | toParent (n : PNode)
  | toRoot (n : PNode)
  deriving Repr

/-- The node carried by a push event. -/
def entryNode : BEntry → PNode
  | .toParent n => n
  | .toRoot n => n

/-- The nodes pushed onto the current parent, in order. -/
def parentNodes (es : List BEntry) : List PNode :=
  es.filterMap (fun e => match e with | .toParent n => some n | _ => none)

/-- The nodes pushed onto the root, in order. -/
def rootNodes (es : List BEntry) : List PNode :=
  es.filterMap (fun e => match e with | .toRoot n => some n | _ => none)

/-- `/^MainInput\d+$/i.test(key)`: hidden main-input keys. -/
def isMainInputKey (k : Str) : Bool :=
  let t := k.map Char.toLower
  (strS ("maininput")).isPrefixOf t &&
    !(t.drop 9).isEmpty && (t.drop 9).all Char.isDigit

/-- The builder's queue walk.  A `CONTROL_DATA` item whose `Source`
property is a key of the metadata map becomes a `GROUP` node; exactly
`childCount` items are spliced off the front of the queue and rebuilt
beneath it.  Fuel dominates the queue length (each recursive call's queue
is strictly shorter). -/
def buildEntriesGo (md : MetaMap) : Nat → List FlatItem → Nat →
    (List BEntry × Nat)
  | 0, _, nid => ([], nid)
  | _ + 1, [], nid => ([], nid)
  | fuel + 1, item :: rest, nid =>
    match item with
    | .pageMarker name =>
      let (es, nid1) := buildEntriesGo md fuel rest (nid + 1)
      (.toRoot (.page nid name) :: es, nid1)
    | .separatorData key props ob =>
      let (es, nid1) := buildEntriesGo md fuel rest (nid + 1)
      (.toParent (.separator nid ⟨key, ob, props⟩ false) :: es, nid1)
    | .controlData key props ob =>
      match getProp props (strS ("Source")) with
      | some src =>
        match findMeta md src with
        | some metadata =>
          let (childEs, nid1) :=
            buildEntriesGo md fuel (rest.take metadata.childCount) (nid + 1)
          let (contEs, nid2) :=
            buildEntriesGo md fuel (rest.drop metadata.childCount) nid1
          (.toParent (.group nid metadata.name (some src)
              (some ⟨key, ob, props⟩) (parentNodes childEs)) ::
            ((rootNodes childEs).map BEntry.toRoot ++ contEs), nid2)
        | none =>
          let (es, nid1) := buildEntriesGo md fuel rest (nid + 1)
          (.toParent (.control nid ⟨key, ob, props⟩ (isMainInputKey key)
              false) :: es, nid1)
      | none =>
        let (es, nid1) := buildEntriesGo md fuel rest (nid + 1)
        (.toParent (.control nid ⟨key, ob, props⟩ (isMainInputKey key)
            false) :: es, nid1)

/-- The builder at adequate fuel. -/
def buildEntries (md : MetaMap) (items : List FlatItem) (nid : Nat) :
    (List BEntry × Nat) :=
  buildEntriesGo md items.length items nid

/-- parser.js `buildTreeRecursive(root, flatList)`: the root's children
are all push events of the walk, in execution order. -/
def buildTreeRecursive (md : MetaMap) (items : List FlatItem) (nid : Nat) :
    (List PNode × Nat) :=
  let (es, nid1) := buildEntries md items nid
  (es.map entryNode, nid1)

/-! ## `parseSettingFile` assembly -/

/-- The diagnostics record of `parseSettingFile`. -/
structure Diagnostics where
  foundGroupOperator : Str
  groupBodySnippet : Str
  inputsBlockSnippet : Str
  toolsBlockSnippet : Str
  deriving Repr, DecidableEq

/-- `x.trim().substring(0, 200) + '...'`. -/
def snippet (s : Str) : Str := (trimS s).take 200 ++ strS ("...")

/-- The result object of `parseSettingFile`.  `tree` is the children list
of the `ROOT` node (which always exists, has id 0 and no parent). -/
structure ParseResult where
  tree : List PNode
  mainOperatorName : Str
  mainOperatorType : Str
  originalTools : Str
  maxAutoLabelIndex : Nat
  diagnostics : Diagnostics
  deriving Repr

/-- The operator-name alternation `(?:\["([^"]+)"\]|(\w+))` anchored at
the head of `s`: captured name and characters consumed. -/
def matchOperatorNameAt (s : Str) : Option (Str × Nat) :=
  match s with
  | '[' :: '"' :: rest =>
    let q := rest.takeWhile (fun c => c ≠ '"')
    if q = [] then none
    else
      match rest.drop q.length with
      | '"' :: ']' :: _ => some (q, q.length + 4)
      | _ => none
  | _ =>
    let w := s.takeWhile isWordChar
    if w = [] then none else some (w, w.length)

/-- Anchored match of the operator-header pattern
`(?:\["([^"]+)"\]|(\w+))\s*=\s*(GroupOperator|MacroOperator)\s*{`:
captured name and operator kind. -/
def matchOperatorAt (s : Str) : Option (Str × Str) :=
  match matchOperatorNameAt s with
  | none => none
  | some (name, nlen) =>
    let r1 := s.drop nlen
    let sp1 := r1.takeWhile isJsSpace
    match r1.drop sp1.length with
    | '=' :: r2 =>
      let sp2 := r2.takeWhile isJsSpace
      let r3 := r2.drop sp2.length
      let tryKind : Str → Option Str := fun kind =>
        if kind.isPrefixOf r3 then
          let r4 := r3.drop kind.length
          let sp3 := r4.takeWhile isJsSpace
          match r4.drop sp3.length with
          | '\x7b' :: _ => some kind
          | _ => none
        else none
      match tryKind (strS ("GroupOperator")) with
      | some k => some (name, k)
      | none =>
        match tryKind (strS ("MacroOperator")) with
        | some k => some (name, k)
        | none => none
    | _ => none

/-- Leftmost operator-header match with its index (`match.index`). -/
def findOperatorMatch : Nat → Str → Option (Nat × Str × Str)
  | _, [] => none
  | i, c :: rest =>
    match matchOperatorAt (c :: rest) with
    | some nt => some (i, nt.1, nt.2)
    | none => findOperatorMatch (i + 1) rest

/-- `/^\w+$/.test(name) ? name : `["name"]``. -/
def formattedName (name : Str) : Str :=
  if !name.isEmpty && name.all isWordChar then name
  else '[' :: '"' :: (name ++ ['"', ']'])

/-- parser.js `parseSettingFile`.  When no operator header matches, the
early return produces an empty root with empty name/type/tools, max index
0 and `foundGroupOperator = "No"`.
The `Math.max(0, mainOperatorStartIndex)` of the source is the index of
the leftmost match here, so the `findBlockContent` search starts at that
match. -/
def parseSettingFile (content : Str) : ParseResult :=
  match findOperatorMatch 0 content with
  | none =>
    { tree := [], mainOperatorName := [], mainOperatorType := [],
      originalTools := [], maxAutoLabelIndex := 0,
      diagnostics := ⟨strS ("No"), strS ("N/A"), strS ("N/A"), strS ("N/A")⟩ }
  | some (goIdx, name, otype) =>
    let formatted := formattedName name
    let groupOpenHeader :=
      formatted ++ strS (" = ") ++ otype ++ strS (" \x7b")
    let groupBlock := findBlockContent content groupOpenHeader goIdx
    let groupBody :=
      match groupBlock with
      | some b => b.content
      | none => content.drop (goIdx + groupOpenHeader.length)
    let inputsBlock := findTopLevelBlock groupBody (strS ("Inputs = ordered() \x7b"))
    let flatList :=
      match inputsBlock with
      | some ib => pageAnnotate (collectInstanceInputs ib.content)
      | none => []
    let toolsBlock := findTopLevelBlock groupBody (strS ("Tools = ordered() \x7b"))
    let originalTools :=
      match toolsBlock with
      | some tb => tb.content
      | none => []
    let helperBlock :=
      findBlockContent originalTools (strS ("background_helper = Background \x7b")) 0
    let mdmx : MetaMap × Nat :=
      match helperBlock with
      | none => ([], 0)
      | some hb =>
        match findBlockContent hb.content (strS ("UserControls = ordered() \x7b")) 0 with
        | none => ([], 0)
        | some ucb => readUserControls ucb.content
    let built := buildTreeRecursive mdmx.1 flatList 1
    { tree := built.1, mainOperatorName := name, mainOperatorType := otype,
      originalTools := originalTools, maxAutoLabelIndex := mdmx.2,
      diagnostics :=
        ⟨strS ("Yes"), snippet groupBody,
          (match inputsBlock with
            | some ib => snippet ib.content
            | none => strS ("N/A")),
          snippet originalTools⟩ }

/-- script.js `processInputContent`: the guard
`if (!result || !result.tree) throw …` can never fire, because
`parseSettingFile` always returns an object whose `tree` field is the
(truthy) root node object — including on the missing-header early return.
So the model always succeeds with the parse result. -/
def processInputContent (content : Str) : Except Str ParseResult :=
  Except.ok (parseSettingFile content)

/-! ## writer.js: rename rewriting -/

/-- Space or tab (`[ \t]`). -/
def isBlankCh (c : Char) : Bool := c = ' ' || c = '\t'

/-- Replace every occurrence of the character `c` by `rep`. -/
def charReplace (c : Char) (rep : Str) (l : Str) : Str :=
  l.flatMap (fun x => if x = c then rep else [x])

/-- `String(newName).replace(/\\/g, '\\\\').replace(/"/g, '\\"')`:
backslashes doubled first, then quotes escaped. -/
def escapeName (s : Str) : Str :=
  charReplace '"' (strS ("\\\"")) (charReplace '\\' (strS ("\\\\")) s)

/-- Anchored match of `/(\n[ \t]*Name\s*=\s*)("([^"]*)"|[^,}\n]+)(\s*,?)/`
at the head of `s`: lengths of group 1, the value group and group 4.
The only backtracking the pattern admits is between the trailing `\s*` of
group 1 and a bare value, which may start inside that whitespace run; the
regex engine gives back as little whitespace as possible, i.e. the match
uses the largest split point whose character can start a bare value
(anything but a newline). -/
def matchNamePropAt (s : Str) : Option (Nat × Nat × Nat) :=
  match s with
  | '\n' :: r0 =>
    let ind := r0.takeWhile isBlankCh
    let r1 := r0.drop ind.length
    if (strS ("Name")).isPrefixOf r1 then
      let r2 := r1.drop 4
      let sp1 := r2.takeWhile isJsSpace
      match r2.drop sp1.length with
      | '=' :: r3 =>
        let ws := r3.takeWhile isJsSpace
        let r4 := r3.drop ws.length
        let pre := 1 + ind.length + 4 + sp1.length + 1
        let g4At : Str → Nat := fun t =>
          let sp3 := t.takeWhile isJsSpace
          sp3.length + (match t.drop sp3.length with
            | ',' :: _ => 1
            | _ => 0)
        let vAt : Str → Option (Nat × Nat) := fun t =>
          match t with
          | '"' :: t1 =>
            let q := t1.takeWhile (fun c => c ≠ '"')
            if q.length < t1.length then
              some (q.length + 2, g4At (t1.drop (q.length + 1)))
            else
              let b := t.takeWhile (fun c => !(c = ',' || c = '\x7d' || c = '\n'))
              if b = [] then none else some (b.length, g4At (t.drop b.length))
          | _ =>
            let b := t.takeWhile (fun c => !(c = ',' || c = '\x7d' || c = '\n'))
            if b = [] then none else some (b.length, g4At (t.drop b.length))
        match vAt r4 with
        | some (vlen, g4) => some (pre + ws.length, vlen, g4)
        | none =>
          let back := ws.reverse.takeWhile (fun c => c = '\n')
          if back.length < ws.length then
            let sp2 := ws.length - back.length - 1
            let t := r3.drop sp2
            let b := t.takeWhile (fun c => !(c = ',' || c = '\x7d' || c = '\n'))
            some (pre + sp2, b.length, g4At (t.drop b.length))
          else none
      | _ => none
    else none
  | _ => none

/-- Generic leftmost scan returning the match position as well. -/
def scanFirstPos {α : Type} (f : Str → Option α) : Nat → Str → Option (Nat × α)
  | _, [] => none
  | i, c :: rest =>
    match f (c :: rest) with
    | some v => some (i, v)
    | none => scanFirstPos f (i + 1) rest

/-- writer.js `updateInstanceInputName`.  The escaped name is spliced into
the replacement text; the model assumes it contains no `$` group
references (the source interpolates it into a `String.replace`
replacement pattern).  The `try`/`catch` of the source cannot fire in
this pure model: `String(...)` and the two `replace` calls are total. -/
def updateInstanceInputName (block : Str) (newName : Str) : Str :=
  let escaped := escapeName newName
  match scanFirstPos matchNamePropAt 0 block with
  | some (pos, g1len, vlen, g4len) =>
    block.take (pos + g1len) ++ '"' :: (escaped ++ strS ("\",")) ++
      block.drop (pos + g1len + vlen + g4len)
  | none =>
    match idxOfFrom block ['\x7b'] 0 with
    | none => block
    | some braceIdx =>
      let insertPos :=
        match idxOfFrom block ['\n'] braceIdx with
        | none => braceIdx + 1
        | some newlineIdx => newlineIdx + 1
      let after := block.drop insertPos
      let indMatch := after.takeWhile isBlankCh
      let indent := if indMatch = [] then strS ("                    ") else indMatch
      block.take insertPos ++ indent ++ strS ("Name = \"") ++ escaped ++
        strS ("\",\n") ++ block.drop insertPos

/-! ## writer.js: page property rewriting -/

/-- Anchored match of `/Page\s*=\s*(?:"[^"]*"|[^,}\s]+)/` (match length).
No backtracking arises: the bare alternative excludes every whitespace
character, so shrinking the `\s*` run cannot help. -/
def matchPageAt (s : Str) : Option Nat :=
  if (strS ("Page")).isPrefixOf s then
    let r1 := s.drop 4
    let sp1 := r1.takeWhile isJsSpace
    match r1.drop sp1.length with
    | '=' :: r2 =>
      let sp2 := r2.takeWhile isJsSpace
      let r3 := r2.drop sp2.length
      let pre := 4 + sp1.length + 1 + sp2.length
      let bare : Option Nat :=
        let b := r3.takeWhile (fun c => !(c = ',' || c = '\x7d' || isJsSpace c))
        if b = [] then none else some (pre + b.length)
      match r3 with
      | '"' :: r4 =>
        let q := r4.takeWhile (fun c => c ≠ '"')
        if q.length < r4.length then some (pre + q.length + 2) else bare
      | _ => bare
    | _ => none
  else none

/-- writer.js `addPageProperty`: replace the first `Page = …` property, or
insert one right after the first `(\s*{)` match (whose `$1` ends at the
first opening brace). -/
def addPageProperty (textBlock pageName : Str) : Str :=
  if pageName = [] then textBlock
  else
    match scanFirstPos matchPageAt 0 textBlock with
    | some (pos, mlen) =>
      textBlock.take pos ++ strS ("Page = \"") ++ pageName ++ ['"'] ++
        textBlock.drop (pos + mlen)
    | none =>
      match idxOfFrom textBlock ['\x7b'] 0 with
      | none => textBlock
      | some k =>
        textBlock.take (k + 1) ++ strS ("\n                    Page = \"") ++
          pageName ++ strS ("\",") ++ textBlock.drop (k + 1)

/-! ## writer.js: counters, depth, synthesized text -/

/-- `/^AutoLabel(\d+)$/` on an internal key. -/
def parseAutoLabel (s : Str) : Option Nat :=
  if (strS ("AutoLabel")).isPrefixOf s then
    let d := s.drop 9
    if !d.isEmpty && d.all Char.isDigit then some (natOfDigits d) else none
  else none

/-! The `scan` closure of `generateSettingFile`: the maximum `AutoLabel`
index over the groups of the live tree (truthy `internalKey` only). -/
mutual
def scanMaxNode : PNode → Nat
  | .group _ _ ik _ cs =>
    max
      (match ik with
        | some k => if !k.isEmpty then (parseAutoLabel k).getD 0 else 0
        | none => 0)
      (scanMaxList cs)
  | _ => 0
def scanMaxList : List PNode → Nat
  | [] => 0
  | c :: cs => max (scanMaxNode c) (scanMaxList cs)
end

/-! The `countDescendants` closure: every child counts one, and the walk
recurses into `GROUP` children only. -/
mutual
def countDescNode : PNode → Nat
  | .group _ _ _ _ cs => countDescList cs
  | _ => 0
def countDescList : List PNode → Nat
  | [] => 0
  | c :: cs => 1 + countDescNode c + countDescList cs
end

/-- A `userControls` descriptor line for one group. -/
def ucLine (internalKey : Str) (descendantCount nestLevel : Nat)
    (name : Str) : Str :=
  strS ("                        ") ++ internalKey ++
  strS (" = \x7b INP_Passive = true, INP_External = false, LBLC_DropDownButton = true, INPID_InputControl = \"LabelControl\", LBLC_NumInputs = ") ++
  natStr descendantCount ++ strS (", LBLC_NestLevel = ") ++
  natStr nestLevel ++
  strS (", LINKID_DataType = \"Number\", LINKS_Name = \"") ++ name ++
  strS ("\", \x7d,")

/-- A `userControlInputs` line for one group. -/
def uciLine (internalKey : Str) : Str :=
  strS ("                        ") ++ internalKey ++
  strS (" = Input \x7b Value = 1, \x7d,")

/-- The synthesized `InstanceInput` declaration of a group. -/
def groupBlockText (key internalKey : Str) : Str :=
  strS ("                ") ++ key ++
  strS (" = InstanceInput \x7b\n                    SourceOp = \"background_helper\",\n                    Source = \"") ++
  internalKey ++ strS ("\"\n                \x7d")

/-- The synthesized `InstanceInput` declaration of a separator. -/
def sepBlockText (key : Str) : Str :=
  strS ("                ") ++ key ++
  strS (" = InstanceInput \x7b\n                    SourceOp = \"background_helper\",\n                    Source = \"Separator\"\n                \x7d")

/-! ## writer.js: the flat walk (`flatten` + the main loop +
`generateBaseBlock`) -/

/-- Mutable state threaded through the walk: the two counters, the
currently active page, and the three accumulated line lists. -/
structure GenAcc where
  autoLabelCounter : Nat
  separatorCounter : Nat
  currentPageName : Option Str
  userControls : List Str
  userControlInputs : List Str
  mainInputs : List Str
  deriving Repr

/-- The main loop's `if (currentPageName) baseBlock = addPageProperty …`. -/
def pageify (acc : GenAcc) (b : Str) : Str :=
  match acc.currentPageName with
  | some p => if !p.isEmpty then addPageProperty b p else b
  | none => b

/-! The preorder walk of the (non-root) nodes, merging `flatten`, the main
loop and `generateBaseBlock`: a `PAGE` only updates the active page; a
`GROUP` lazily assigns a fresh `AutoLabel` internal key when its own is
falsy (this is the mutation of the input tree, reflected in the returned
node) and contributes its descriptor lines; `CONTROL`s re-emit their
original block (rewritten by `updateInstanceInputName` when renamed with a
truthy `Name`); `SEPARATOR`s synthesize a declaration.  `depth` is the
number of enclosing `GROUP` nodes (`getDepth` via parent links). -/
mutual
def genNode (depth : Nat) (acc : GenAcc) : PNode → (GenAcc × PNode)
  | .page i name =>
    ({ acc with currentPageName := some name }, .page i name)
  | .control i d hid ren =>
    let block0 := d.originalBlock
    let block1 :=
      if ren then
        match getProp d.properties (strS ("Name")) with
        | some nm => if !nm.isEmpty then updateInstanceInputName block0 nm else block0
        | none => block0
      else block0
    let block2 := pageify acc block1
    ({ acc with mainInputs := acc.mainInputs ++ [block2] }, .control i d hid ren)
  | .separator i d hid =>
    let ks : Str × Nat :=
      if !d.key.isEmpty then (d.key, acc.separatorCounter)
      else (strS ("Separator") ++ natStr acc.separatorCounter,
        acc.separatorCounter + 1)
    let block2 := pageify acc (sepBlockText ks.1)
    ({ acc with
        separatorCounter := ks.2,
        mainInputs := acc.mainInputs ++ [block2] }, .separator i d hid)
  | .group i name ik d cs =>
    let kc : Str × Nat :=
      match ik with
      | some k =>
        if !k.isEmpty then (k, acc.autoLabelCounter)
        else (strS ("AutoLabel") ++ natStr acc.autoLabelCounter,
          acc.autoLabelCounter + 1)
      | none =>
        (strS ("AutoLabel") ++ natStr acc.autoLabelCounter,
          acc.autoLabelCounter + 1)
    let internalKey := kc.1
    let dc := countDescList cs
    let key :=
      match d with
      | some dd => if !dd.key.isEmpty then dd.key else internalKey
      | none => internalKey
    let block2 := pageify acc (groupBlockText key internalKey)
    let acc1 := { acc with
      autoLabelCounter := kc.2,
      userControls := acc.userControls ++ [ucLine internalKey dc (depth + 1) name],
      userControlInputs := acc.userControlInputs ++ [uciLine internalKey],
      mainInputs := acc.mainInputs ++ [block2] }
    let r := genNodes (depth + 1) acc1 cs
    (r.1, .group i name (some internalKey) d r.2)
def genNodes (depth : Nat) (acc : GenAcc) : List PNode → (GenAcc × List PNode)
  | [] => (acc, [])
  | n :: ns =>
    let r1 := genNode depth acc n
    let r2 := genNodes depth r1.1 ns
    (r2.1, r1.2 :: r2.2)
end

/-! ## writer.js: final assembly -/

/-- `block.trim().replace(/,$/, "").trim()`. -/
def sanitizeBlock (b : Str) : Str :=
  let t := trimS b
  let t2 := match t.reverse with
    | ',' :: r => r.reverse
    | _ => t
  trimS t2

/-- writer.js `indentFirstLine`. -/
def indentFirstLine (text indent : Str) : Str :=
  match idxOfFrom text ['\n'] 0 with
  | none => indent ++ text
  | some nl => indent ++ text.take nl ++ '\n' :: text.drop (nl + 1)

/-- `Array.prototype.join`. -/
def joinSep (sep : Str) : List Str → Str
  | [] => []
  | [x] => x
  | x :: y :: xs => x ++ sep ++ joinSep sep (y :: xs)

/-- First literal chunk of the helper-node template (through the
`Height` line). -/
def helperChunk1 : Str :=
  strS ("                background_helper = Background \x7b\n                    PassThrough = true,\n                    Inputs = \x7b\n                        Width = Input \x7b Value = 1920, \x7d,\n                        Height = Input \x7b Value = 1080, \x7d,\n")

/-- Middle literal chunk of the helper-node template (between the two
joined line lists; the `Separator` line is indented with six tabs in the
source). -/
def helperChunk2 : Str :=
  strS ("\n                    \x7d,\n                    ViewInfo = OperatorInfo \x7b Pos = \x7b 0, -100 \x7d \x7d,\n                    UserControls = ordered() \x7b\n\t\t\t\t\t\tSeparator = \x7b INPID_InputControl = \"SeparatorControl\", \x7d,\n")

/-- Final literal chunk of the helper-node template. -/
def helperChunk3 : Str := strS ("\n                    \x7d\n                \x7d")

/-- The helper-node template, with the two joined line lists spliced in. -/
def helperNodeText (uciJoin ucJoin : Str) : Str :=
  helperChunk1 ++ uciJoin ++ helperChunk2 ++ ucJoin ++ helperChunk3

/-- The fixed helper-node header used to find and remove a pre-existing
helper block. -/
def helperHeader : Str := strS ("background_helper = Background \x7b")

/-- Removal of the first pre-existing helper block from the original
tools text. -/
def cleanedToolsOf (originalTools : Str) : Str :=
  match findBlockContent originalTools helperHeader 0 with
  | some b => originalTools.take b.startIndex ++ originalTools.drop b.endIndex
  | none => originalTools

/-- `cleanedTools.replace(/^[\s,]*/, '')`. -/
def cleanedHeadOf (cleanedTools : Str) : Str :=
  cleanedTools.dropWhile (fun c => isJsSpace c || c = ',')

/-- The content of the regenerated `Tools` block: the fresh helper node,
followed — when the cleaned original tools text is nonblank — by a comma,
a newline and the re-indented original tools. -/
def newToolsBlockContentOf (newHelperNode cleanedTools : Str) : Str :=
  if !(trimS cleanedTools).isEmpty then
    newHelperNode ++ strS (",\n") ++
      indentFirstLine (cleanedHeadOf cleanedTools) (strS ("                "))
  else newHelperNode

/-- The result object of `generateSettingFile`. -/
structure GenResult where
  content : Str
  filename : Str
  deriving Repr, DecidableEq

/-- The host operator's body as the writer locates it: the balanced block
after the reconstructed main header, or the whole original content when
that header is not found (`Math.max(0, -1) = 0` and a failed
`findBlockContent` both land in the fallback). -/
def hostGroupBody (originalContent mainOperatorName mainOperatorType : Str) : Str :=
  let mainHeader :=
    formattedName mainOperatorName ++ strS (" = ") ++ mainOperatorType ++ strS (" \x7b")
  match findBlockContent originalContent mainHeader 0 with
  | some b => b.content
  | none => originalContent

/-- The two recognized `Outputs` headers. -/
def outputsHeaders : List Str :=
  [strS ("Outputs = ordered() \x7b"), strS ("Outputs = \x7b")]

/-- The two recognized `ViewInfo` headers. -/
def viewInfoHeaders : List Str :=
  [strS ("ViewInfo = GroupInfo \x7b"), strS ("ViewInfo = OperatorInfo \x7b")]

/-- writer.js `generateSettingFile`.  The first component is the thrown
error or the result; the second is the tree after the walk (the walk's
`internalKey` assignments happen before the `Outputs`/`ViewInfo` check,
so the mutated tree is returned in both cases). -/
def generateSettingFile (tree : List PNode)
    (originalContent originalFilename mainOperatorName mainOperatorType
      originalTools : Str) (maxAutoLabelIndex : Nat) :
    Except Str GenResult × List PNode :=
  let effectiveMax := max maxAutoLabelIndex (scanMaxList tree)
  let acc0 : GenAcc := ⟨effectiveMax + 1, 1, none, [], [], []⟩
  let walk := genNodes 0 acc0 tree
  let accF := walk.1
  let sanitizedMainInputs := accF.mainInputs.map sanitizeBlock
  let indentedMainInputs :=
    sanitizedMainInputs.map (fun b => indentFirstLine b (strS ("                ")))
  let newInputsBlock :=
    strS ("Inputs = ordered() \x7b\n") ++
      joinSep (strS (",\n")) indentedMainInputs ++ strS ("\n            \x7d")
  let newHelperNode :=
    helperNodeText (joinSep (strS ("\n")) accF.userControlInputs)
      (joinSep (strS ("\n")) accF.userControls)
  let cleanedTools := cleanedToolsOf originalTools
  let newToolsBlockContent := newToolsBlockContentOf newHelperNode cleanedTools
  let newToolsBlock :=
    strS ("Tools = ordered() \x7b\n") ++ newToolsBlockContent ++
      strS ("\n            \x7d")
  let groupBody := hostGroupBody originalContent mainOperatorName mainOperatorType
  let outputsBlockInfo := findFirstTopLevelBlock groupBody outputsHeaders
  let viewInfoBlockInfo := findFirstTopLevelBlock groupBody viewInfoHeaders
  match outputsBlockInfo, viewInfoBlockInfo with
  | some ob, some vb =>
    let outputsBlockString :=
      (groupBody.drop ob.startIndex).take (ob.endIndex - ob.startIndex)
    let viewInfoBlockString :=
      (groupBody.drop vb.startIndex).take (vb.endIndex - vb.startIndex)
    let groupOperatorParts :=
      [trimS newInputsBlock, trimS outputsBlockString,
        trimS viewInfoBlockString, trimS newToolsBlock]
    let newGroupOperatorContent :=
      strS ("\n            ") ++
        joinSep (strS (",\n        ")) groupOperatorParts ++ strS ("\n        ")
    let finalContent :=
      strS ("\x7b\n    Tools = ordered() \x7b\n        ") ++
        formattedName mainOperatorName ++ strS (" = ") ++ mainOperatorType ++
        strS (" \x7b") ++ newGroupOperatorContent ++
        strS ("\x7d\n    \x7d,\n    ActiveTool = \"") ++ mainOperatorName ++
        strS ("\"\n\x7d")
    let safeFilename :=
      if originalFilename = [] then strS ("macro.setting") else originalFilename
    let newFilename :=
      match idxOfFrom safeFilename (strS (".setting")) 0 with
      | some i =>
        safeFilename.take i ++ strS ("_modified.setting") ++
          safeFilename.drop (i + 8)
      | none => safeFilename
    (Except.ok ⟨finalContent, newFilename⟩, walk.2)
  | _, _ =>
    (Except.error (strS ("Could not find \x27Outputs\x27 or \x27ViewInfo\x27 blocks within the main operator.")),
      walk.2)

/-! ## Claim-side definitions

These definitions state properties the claims talk about; the page-marker
specification follows the spec's words and is compared with the source's
page pass. -/

/-- The `Page` value a flat item still carries (markers carry none). -/
def flatPage : FlatItem → Option Str
  | .pageMarker _ => none
  | .separatorData _ props _ => getProp props (strS ("Page"))
  | .controlData _ props _ => getProp props (strS ("Page"))

/-- Specification of the page pass, following the spec's words: keep an
active page (default `"Controls"`); a declaration with a `Page` property
different from the active page gets a marker right before it and updates
the active page; the `Page` property is always stripped when present. -/
def pageMarkerSpec : Str → List RawControl → List FlatItem
  | _, [] => []
  | cur, item :: rest =>
    match getProp item.properties (strS ("Page")) with
    | some p =>
      if p ≠ cur then
        .pageMarker p ::
          rawToFlat item (delProp item.properties (strS ("Page"))) ::
          pageMarkerSpec p rest
      else
        rawToFlat item (delProp item.properties (strS ("Page"))) ::
          pageMarkerSpec cur rest
    | none => rawToFlat item item.properties :: pageMarkerSpec cur rest

/-- Pointwise equality of two property objects as maps (C2's "same
property maps"). -/
def propsEquiv (p q : Props) : Bool :=
  p.all (fun kv => getProp q kv.1 == getProp p kv.1) &&
  q.all (fun kv => getProp p kv.1 == getProp q kv.1)

/-! The tree isomorphism of C2: same shape, same node types, same names,
same property maps and same hidden flags (ids, internal keys and captured
declaration text are not part of the comparison). -/
mutual
def isoNode : PNode → PNode → Bool
  | .page _ n1, .page _ n2 => n1 == n2
  | .separator _ d1 h1, .separator _ d2 h2 =>
    propsEquiv d1.properties d2.properties && (h1 == h2)
  | .control _ d1 h1 _, .control _ d2 h2 _ =>
    propsEquiv d1.properties d2.properties && (h1 == h2)
  | .group _ n1 _ d1 cs1, .group _ n2 _ d2 cs2 =>
    n1 == n2 &&
    propsEquiv
      (match d1 with | some d => d.properties | none => [])
      (match d2 with | some d => d.properties | none => []) &&
    isoNodes cs1 cs2
  | _, _ => false
def isoNodes : List PNode → List PNode → Bool
  | [], [] => true
  | x :: xs, y :: ys => isoNode x y && isoNodes xs ys
  | _, _ => false
end

/-! Truthiness of every group's internal key (C5: trees the walk leaves
unchanged). -/
mutual
def nodeKeyed : PNode → Bool
  | .group _ _ ik _ cs =>
    (match ik with | some k => !k.isEmpty | none => false) && nodesKeyed cs
  | _ => true
def nodesKeyed : List PNode → Bool
  | [] => true
  | n :: ns => nodeKeyed n && nodesKeyed ns
end

/-! The internal keys of all groups in preorder (C5/C6 observations). -/
mutual
def groupIKsNode : PNode → List (Option Str)
  | .group _ _ ik _ cs => ik :: groupIKsList cs
  | _ => []
def groupIKsList : List PNode → List (Option Str)
  | [] => []
  | n :: ns => groupIKsNode n ++ groupIKsList ns
end

/-- A falsy internal key (absent or empty), i.e. one the walk replaces. -/
def isKeyless : Option Str → Bool
  | none => true
  | some k => k.isEmpty

/-- Number of falsy keys in a preorder key list. -/
def countKeyless (l : List (Option Str)) : Nat := (l.filter isKeyless).length

/-- The preorder key list after the walk: every falsy key is replaced by
the next fresh `AutoLabel`, truthy keys are kept. -/
def patchKeys (c : Nat) : List (Option Str) → List (Option Str)
  | [] => []
  | none :: rest =>
    some (strS ("AutoLabel") ++ natStr c) :: patchKeys (c + 1) rest
  | some k :: rest =>
    if k.isEmpty then
      some (strS ("AutoLabel") ++ natStr c) :: patchKeys (c + 1) rest
    else some k :: patchKeys c rest

/-- The indices of the labels newly assigned between two preorder key
lists: positions whose key was falsy before, read back through
`parseAutoLabel`. -/
def newLabelIndices (before after : List (Option Str)) : List Nat :=
  (before.zip after).filterMap
    (fun p => if isKeyless p.1 then p.2.bind parseAutoLabel else none)

/-! ## Named components of the writer's assembly (used to state claims
about `generateSettingFile`; they are definitionally the writer's own
intermediate values). -/

/-- The walk of `generateSettingFile` with its initial state. -/
def genWalk (tree : List PNode) (mx : Nat) : GenAcc × List PNode :=
  genNodes 0 ⟨max mx (scanMaxList tree) + 1, 1, none, [], [], []⟩ tree

/-- The regenerated `Inputs` block. -/
def newInputsBlockOf (tree : List PNode) (mx : Nat) : Str :=
  strS ("Inputs = ordered() \x7b\n") ++
    joinSep (strS (",\n"))
      (((genWalk tree mx).1.mainInputs.map sanitizeBlock).map
        (fun b => indentFirstLine b (strS ("                ")))) ++
    strS ("\n            \x7d")

/-- The regenerated helper node. -/
def newHelperNodeOf (tree : List PNode) (mx : Nat) : Str :=
  helperNodeText
    (joinSep (strS ("\n")) (genWalk tree mx).1.userControlInputs)
    (joinSep (strS ("\n")) (genWalk tree mx).1.userControls)

/-- The regenerated `Tools` block. -/
def newToolsBlockOf (tree : List PNode) (originalTools : Str) (mx : Nat) : Str :=
  strS ("Tools = ordered() \x7b\n") ++
    newToolsBlockContentOf (newHelperNodeOf tree mx)
      (cleanedToolsOf originalTools) ++
    strS ("\n            \x7d")

/-- The text span of a located block, including its header and braces
(`groupBody.substring(startIndex, endIndex)`). -/
def blockStringOf (body : Str) (b : Block) : Str :=
  (body.drop b.startIndex).take (b.endIndex - b.startIndex)

/-- The fixed output skeleton of the writer: a fresh file holding only
the operator (with the four joined parts as its body) and an
`ActiveTool` line. -/
def finalContentOf (name otype : Str) (parts : List Str) : Str :=
  strS ("\x7b\n    Tools = ordered() \x7b\n        ") ++ formattedName name ++
    strS (" = ") ++ otype ++ strS (" \x7b") ++
    (strS ("\n            ") ++ joinSep (strS (",\n        ")) parts ++
      strS ("\n        ")) ++
    strS ("\x7d\n    \x7d,\n    ActiveTool = \"") ++ name ++ strS ("\"\n\x7d")

/-! The isomorphism-up-to-canonicalization of the amended C2: like
`isoNode`, but a reparsed separator or group declaration is expected to
carry exactly the canonical synthesized property pair
`SourceOp = "background_helper", Source = <key>` instead of the original
declaration\x27s property map. -/
mutual
def isoNodeCanon : PNode → PNode → Bool
  | .page _ n1, .page _ n2 => n1 == n2
  | .control _ d1 h1 _, .control _ d2 h2 _ =>
    propsEquiv d1.properties d2.properties && (h1 == h2)
  | .separator _ _ h1, .separator _ d2 h2 =>
    (h1 == h2) && propsEquiv d2.properties
      [(strS ("SourceOp"), some (strS ("background_helper"))),
       (strS ("Source"), some (strS ("Separator")))]
  | .group _ n1 _ _ cs1, .group _ n2 ik2 d2 cs2 =>
    n1 == n2 &&
    (match ik2, d2 with
      | some k, some dd => propsEquiv dd.properties
          [(strS ("SourceOp"), some (strS ("background_helper"))),
           (strS ("Source"), some k)]
      | _, _ => false) &&
    isoNodesCanon cs1 cs2
  | _, _ => false
def isoNodesCanon : List PNode → List PNode → Bool
  | [], [] => true
  | x :: xs, y :: ys => isoNodeCanon x y && isoNodesCanon xs ys
  | _, _ => false
end

/-! A "plain" tree: no page nodes, no pending renames, truthy separator
keys and truthy group keys — the state of a tree a parse of an
unpaged file produces, untouched by the editor. -/
mutual
def nodePlain : PNode → Bool
  | .page _ _ => false
  | .control _ _ _ ren => !ren
  | .separator _ d _ => !d.key.isEmpty
  | .group _ _ ik _ cs =>
    (match ik with | some k => !k.isEmpty | none => false) && nodesPlain cs
def nodesPlain : List PNode → Bool
  | [] => true
  | n :: ns => nodePlain n && nodesPlain ns
end

/-! The declaration texts the walk emits for a plain tree, in preorder:
a control contributes its captured original block verbatim, a separator
its canonical synthesized block, a group its canonical synthesized block
followed by its children\x27s. -/
mutual
def emittedBlocksNode : PNode → List Str
  | .page _ _ => []
  | .control _ d _ _ => [d.originalBlock]
  | .separator _ d _ => [sepBlockText d.key]
  | .group _ _ ik d cs =>
    groupBlockText
      (match d with
        | some dd =>
          if !dd.key.isEmpty then dd.key
          else (match ik with | some k => k | none => [])
        | none => (match ik with | some k => k | none => []))
      (match ik with | some k => k | none => []) :: emittedBlocksList cs
def emittedBlocksList : List PNode → List Str
  | [] => []
  | n :: ns => emittedBlocksNode n ++ emittedBlocksList ns
end

/-! # Theorems -/

/-! ## C1: tree reconstruction consumes exactly the metadata subtree size -/

lemma buildEntriesGo_fuel (md : MetaMap) :
    ∀ (f g : Nat) (items : List FlatItem) (nid : Nat),
      items.length ≤ f → items.length ≤ g →
      buildEntriesGo md f items nid = buildEntriesGo md g items nid := by
  intro f
  induction f with
  | zero =>
    intro g items nid hf hg
    cases items with
    | nil => cases g <;> rfl
    | cons item rest => simp at hf
  | succ f ih =>
    intro g items nid hf hg
    cases items with
    | nil => cases g <;> rfl
    | cons item rest =>
      cases g with
      | zero => simp at hg
      | succ g =>
        have hf' : rest.length ≤ f := by simp at hf; omega
        have hg' : rest.length ≤ g := by simp at hg; omega
        cases item with
        | pageMarker name =>
          simp only [buildEntriesGo]
          rw [ih g rest (nid + 1) hf' hg']
        | separatorData key props ob =>
          simp only [buildEntriesGo]
          rw [ih g rest (nid + 1) hf' hg']
        | controlData key props ob =>
          cases hsrc : getProp props (strS ("Source")) with
          | none =>
            simp only [buildEntriesGo, hsrc]
            rw [ih g rest (nid + 1) hf' hg']
          | some src =>
            cases hmd : findMeta md src with
            | none =>
              simp only [buildEntriesGo, hsrc, hmd]
              rw [ih g rest (nid + 1) hf' hg']
            | some m =>
              have ht : (rest.take m.childCount).length ≤ f :=
                le_trans (by simp) hf'
              have ht2 : (rest.take m.childCount).length ≤ g :=
                le_trans (by simp) hg'
              have hd : (rest.drop m.childCount).length ≤ f := by
                rw [List.length_drop]; omega
              have hd2 : (rest.drop m.childCount).length ≤ g := by
                rw [List.length_drop]; omega
              simp only [buildEntriesGo, hsrc, hmd]
              rw [ih g (rest.take m.childCount) (nid + 1) ht ht2,
                ih g (rest.drop m.childCount)
                  (buildEntriesGo md g (rest.take m.childCount) (nid + 1)).2 hd hd2]

/-- C1 — Tree reconstruction from the flat sequence: whenever the builder
meets a `ControlDeclaration` whose `Source` is a key of the metadata map,
it produces a `Group` node named from the metadata entry, pushed onto the
current parent, whose descendants are built from exactly the next
`childCount` items of the queue, and the walk continues after those; and
on the flat sequence `[ControlA, GroupProxy(size 2), ControlB, ControlC,
ControlD]` with metadata `{GroupProxy ↦ size 2}` the tree is
`Root{ControlA, Group{ControlB, ControlC}, ControlD}` — `ControlD` lands
as the root's child, not the group's. -/
theorem spec_C1 :
    (∀ (md : MetaMap) (key : Str) (props : Props) (ob : Str)
        (rest : List FlatItem) (nid : Nat) (src : Str) (m : MetaEntry),
      getProp props (strS ("Source")) = some src →
      findMeta md src = some m →
      buildEntries md (.controlData key props ob :: rest) nid =
        (BEntry.toParent (.group nid m.name (some src) (some ⟨key, ob, props⟩)
            (parentNodes (buildEntries md (rest.take m.childCount) (nid + 1)).1)) ::
          ((rootNodes (buildEntries md (rest.take m.childCount) (nid + 1)).1).map
              BEntry.toRoot ++
            (buildEntries md (rest.drop m.childCount)
              (buildEntries md (rest.take m.childCount) (nid + 1)).2).1),
          (buildEntries md (rest.drop m.childCount)
            (buildEntries md (rest.take m.childCount) (nid + 1)).2).2)) ∧
    buildTreeRecursive
        [(strS ("GroupProxy"), ⟨strS ("G"), 1, 2⟩)]
        [.controlData (strS ("ControlA")) [] [],
         .controlData (strS ("P"))
           [(strS ("Source"), some (strS ("GroupProxy")))] [],
         .controlData (strS ("ControlB")) [] [],
         .controlData (strS ("ControlC")) [] [],
         .controlData (strS ("ControlD")) [] []] 1 =
      ([.control 1 ⟨strS ("ControlA"), [], []⟩ false false,
        .group 2 (strS ("G")) (some (strS ("GroupProxy")))
          (some ⟨strS ("P"), [],
            [(strS ("Source"), some (strS ("GroupProxy")))]⟩)
          [.control 3 ⟨strS ("ControlB"), [], []⟩ false false,
           .control 4 ⟨strS ("ControlC"), [], []⟩ false false],
        .control 5 ⟨strS ("ControlD"), [], []⟩ false false], 6) := by
  constructor
  · intro md key props ob rest nid src m hsrc hmd
    show buildEntriesGo md (.controlData key props ob :: rest).length
        (.controlData key props ob :: rest) nid = _
    have h1 : (rest.take m.childCount).length ≤ rest.length := by
      simp
    have h2 : (rest.drop m.childCount).length ≤ rest.length := by
      rw [List.length_drop]; omega
    simp only [List.length_cons, buildEntriesGo, hsrc, hmd]
    rw [buildEntriesGo_fuel md rest.length (rest.take m.childCount).length
        (rest.take m.childCount) (nid + 1) h1 le_rfl,
      buildEntriesGo_fuel md rest.length (rest.drop m.childCount).length
        (rest.drop m.childCount) _ h2 le_rfl]
    rfl
  · rfl

/-- Witness for C1's universally quantified part, at a two-item queue. -/
theorem spec_C1_witness :
    buildEntries [(strS ("K"), ⟨strS ("N"), 1, 1⟩)]
      [.controlData (strS ("p")) [(strS ("Source"), some (strS ("K")))] [],
       .controlData (strS ("c")) [] []] 7 =
    ([BEntry.toParent (.group 7 (strS ("N")) (some (strS ("K")))
        (some ⟨strS ("p"), [], [(strS ("Source"), some (strS ("K")))]⟩)
        [.control 8 ⟨strS ("c"), [], []⟩ false false])], 9) :=
  spec_C1.1 [(strS ("K"), ⟨strS ("N"), 1, 1⟩)] (strS ("p"))
    [(strS ("Source"), some (strS ("K")))] []
    [.controlData (strS ("c")) [] []] 7 (strS ("K")) ⟨strS ("N"), 1, 1⟩
    rfl rfl

/-! ## C3: page-marker emission -/

lemma getProp_delProp (props : Props) (k : Str) :
    getProp (delProp props k) k = none := by
  induction props with
  | nil => rfl
  | cons p rest ih =>
    by_cases h : p.1 = k
    · simpa [delProp, h] using ih
    · simpa [delProp, getProp, h] using ih

lemma flatPage_rawToFlat (it : RawControl) (props : Props) :
    flatPage (rawToFlat it props) = getProp props (strS ("Page")) := by
  cases h : it.isSep <;> simp [rawToFlat, flatPage, h]

lemma truthyO_some {p : Str} (hp : p ≠ []) : truthyO (some p) = true := by
  simp [truthyO, List.isEmpty_iff, hp]

lemma pageAnnotateGo_spec :
    ∀ (items : List RawControl) (first : Bool) (cur : Str),
      (∀ it ∈ items, getProp it.properties (strS ("Page")) ≠ some []) →
      (first = true → cur = strS ("Controls")) →
      pageAnnotateGo first cur items = pageMarkerSpec cur items := by
  intro items
  induction items with
  | nil => intro first cur _ _; cases first <;> rfl
  | cons item rest ih =>
    intro first cur h hfc
    have hhd : getProp item.properties (strS ("Page")) ≠ some [] :=
      h item (by simp)
    have htl : ∀ it ∈ rest, getProp it.properties (strS ("Page")) ≠ some [] :=
      fun it hit => h it (by simp [hit])
    have ihf : ∀ cur2, pageAnnotateGo false cur2 rest = pageMarkerSpec cur2 rest :=
      fun cur2 => ih false cur2 htl (by simp)
    cases hpp : getProp item.properties (strS ("Page")) with
    | none =>
      simp [pageAnnotateGo, pageMarkerSpec, hpp, truthyO, ihf cur]
    | some p =>
      have hp : p ≠ [] := fun he => hhd (by rw [hpp, he])
      have htr : truthyO (some p) = true := truthyO_some hp
      cases first with
      | true =>
        have hcur : cur = strS ("Controls") := hfc rfl
        subst hcur
        by_cases hpc : p = strS ("Controls")
        · subst hpc
          simp [pageAnnotateGo, pageMarkerSpec, hpp, truthyO_some hp, ihf]
        · simp [pageAnnotateGo, pageMarkerSpec, hpp, htr, hpc, ihf]
      | false =>
        by_cases hpc : p = cur
        · subst hpc
          simp [pageAnnotateGo, pageMarkerSpec, hpp, truthyO_some hp, ihf]
        · simp [pageAnnotateGo, pageMarkerSpec, hpp, htr, hpc, ihf]

lemma pageAnnotateGo_noPage :
    ∀ (items : List RawControl) (first : Bool) (cur : Str),
      (∀ it ∈ items, getProp it.properties (strS ("Page")) ≠ some []) →
      ∀ fi ∈ pageAnnotateGo first cur items, flatPage fi = none := by
  intro items
  induction items with
  | nil => intro first cur _ fi hfi; simp [pageAnnotateGo] at hfi
  | cons item rest ih =>
    intro first cur h fi hfi
    have hhd : getProp item.properties (strS ("Page")) ≠ some [] :=
      h item (by simp)
    have htl : ∀ it ∈ rest, getProp it.properties (strS ("Page")) ≠ some [] :=
      fun it hit => h it (by simp [hit])
    have hdel : flatPage (rawToFlat item
        (if truthyO (getProp item.properties (strS ("Page"))) then
          delProp item.properties (strS ("Page"))
        else item.properties)) = none := by
      cases hpp : getProp item.properties (strS ("Page")) with
      | none => simp [flatPage_rawToFlat, truthyO, hpp]
      | some p =>
        have hp : p ≠ [] := fun he => hhd (by rw [hpp, he])
        simp [flatPage_rawToFlat, hpp, truthyO_some hp, getProp_delProp]
    simp only [pageAnnotateGo] at hfi
    split at hfi <;> split at hfi
    · simp only [List.mem_cons] at hfi
      rcases hfi with hfi | hfi | hfi
      · simp [hfi, flatPage]
      · rw [hfi]; exact hdel
      · exact ih false _ htl fi hfi
    · simp only [List.mem_cons] at hfi
      rcases hfi with hfi | hfi
      · rw [hfi]; exact hdel
      · exact ih false cur htl fi hfi
    · simp only [List.mem_cons] at hfi
      rcases hfi with hfi | hfi | hfi
      · simp [hfi, flatPage]
      · rw [hfi]; exact hdel
      · exact ih false _ htl fi hfi
    · simp only [List.mem_cons] at hfi
      rcases hfi with hfi | hfi
      · rw [hfi]; exact hdel
      · exact ih false cur htl fi hfi

/-- C3 — Page-marker emission: on declaration sequences whose `Page`
values are never the empty string (the extractor cannot produce an empty
stored value), the source's page pass emits a marker exactly when a
declaration carries a `Page` property different from the active page
(default `"Controls"`, including before the first declaration), emits
none when the property is absent or equal to the active page, and strips
the `Page` property so that no flat item retains one. -/
theorem spec_C3 :
    ∀ items : List RawControl,
      (∀ it ∈ items, getProp it.properties (strS ("Page")) ≠ some []) →
      pageAnnotate items = pageMarkerSpec (strS ("Controls")) items ∧
      ∀ fi ∈ pageAnnotate items, flatPage fi = none :=
  fun items h =>
    ⟨pageAnnotateGo_spec items true (strS ("Controls")) h (fun _ => rfl),
     pageAnnotateGo_noPage items true (strS ("Controls")) h⟩

/-- Witness for C3 on a four-declaration sequence: a first declaration on
page `X` (marker emitted), an unpaged one, a separator also on `X` (no
marker: the page equals the active one), and one on `Y` (marker). -/
theorem spec_C3_witness :
    pageAnnotate
        [⟨false, strS ("a"),
          [(strS ("Page"), some (strS ("X"))), (strS ("Q"), some (strS ("1")))],
          strS ("b1")⟩,
         ⟨false, strS ("b"), [], strS ("b2")⟩,
         ⟨true, strS ("s"), [(strS ("Page"), some (strS ("X")))], strS ("b3")⟩,
         ⟨false, strS ("c"), [(strS ("Page"), some (strS ("Y")))], strS ("b4")⟩] =
      pageMarkerSpec (strS ("Controls"))
        [⟨false, strS ("a"),
          [(strS ("Page"), some (strS ("X"))), (strS ("Q"), some (strS ("1")))],
          strS ("b1")⟩,
         ⟨false, strS ("b"), [], strS ("b2")⟩,
         ⟨true, strS ("s"), [(strS ("Page"), some (strS ("X")))], strS ("b3")⟩,
         ⟨false, strS ("c"), [(strS ("Page"), some (strS ("Y")))], strS ("b4")⟩] ∧
    ∀ fi ∈ pageAnnotate
        [⟨false, strS ("a"),
          [(strS ("Page"), some (strS ("X"))), (strS ("Q"), some (strS ("1")))],
          strS ("b1")⟩,
         ⟨false, strS ("b"), [], strS ("b2")⟩,
         ⟨true, strS ("s"), [(strS ("Page"), some (strS ("X")))], strS ("b3")⟩,
         ⟨false, strS ("c"), [(strS ("Page"), some (strS ("Y")))], strS ("b4")⟩],
      flatPage fi = none :=
  spec_C3
    [⟨false, strS ("a"),
      [(strS ("Page"), some (strS ("X"))), (strS ("Q"), some (strS ("1")))],
      strS ("b1")⟩,
     ⟨false, strS ("b"), [], strS ("b2")⟩,
     ⟨true, strS ("s"), [(strS ("Page"), some (strS ("X")))], strS ("b3")⟩,
     ⟨false, strS ("c"), [(strS ("Page"), some (strS ("Y")))], strS ("b4")⟩]
    (by decide)

/-! ## C7: regeneration fails atomically when Outputs or ViewInfo is
missing -/

/-- C7 — Missing structural blocks: `generateSettingFile` returns an
error exactly when the host operator's body (as the writer locates it)
lacks an `Outputs` block or a `ViewInfo` block in their recognized header
forms; with both present it returns a complete result.  In the model the
error carries no content at all — the source throws before any output
string is assembled into a return value, so no partial file exists. -/
theorem spec_C7 (tree : List PNode)
    (oc f n t ot : Str) (mx : Nat) :
    (∃ e, (generateSettingFile tree oc f n t ot mx).1 = Except.error e) ↔
      (findFirstTopLevelBlock (hostGroupBody oc n t) outputsHeaders = none ∨
       findFirstTopLevelBlock (hostGroupBody oc n t) viewInfoHeaders = none) := by
  cases h1 : findFirstTopLevelBlock (hostGroupBody oc n t) outputsHeaders with
  | none =>
    cases h2 : findFirstTopLevelBlock (hostGroupBody oc n t) viewInfoHeaders with
    | none => simp [generateSettingFile, h1, h2]
    | some vb => simp [generateSettingFile, h1, h2]
  | some ob =>
    cases h2 : findFirstTopLevelBlock (hostGroupBody oc n t) viewInfoHeaders with
    | none => simp [generateSettingFile, h1, h2]
    | some vb => simp [generateSettingFile, h1, h2]

/-! ## C8: a missing operator header is NOT surfaced as an error -/

/-- C8 counterexample — the input `"hello"` contains no operator header,
yet processing does not surface any error: `processInputContent` succeeds
(the parser's early return hands back an empty root object, and the
caller's `!result || !result.tree` guard never fires), so the claimed
"descriptive structural error" never reaches the caller. -/
theorem spec_C8_counterexample :
    ¬ ∃ e, processInputContent (strS ("hello")) = Except.error e := by
  intro ⟨e, he⟩
  simp [processInputContent] at he

/-- C8 (amended) — when no operator header matches, parsing stops at once
and returns the empty tree with empty operator name/type, empty tools
text, max label index 0 and `foundGroupOperator = "No"` in the
diagnostics; the caller treats this as a successful parse (silent
success), so the only signal is the diagnostics record, not an error. -/
theorem spec_C8_amended (content : Str)
    (h : findOperatorMatch 0 content = none) :
    processInputContent content =
      Except.ok
        { tree := [], mainOperatorName := [], mainOperatorType := [],
          originalTools := [], maxAutoLabelIndex := 0,
          diagnostics :=
            ⟨strS ("No"), strS ("N/A"), strS ("N/A"), strS ("N/A")⟩ } := by
  simp [processInputContent, parseSettingFile, h]

/-- Witness for C8's amended statement at the concrete input `"hello"`. -/
theorem spec_C8_witness :
    processInputContent (strS ("hello")) =
      Except.ok
        { tree := [], mainOperatorName := [], mainOperatorType := [],
          originalTools := [], maxAutoLabelIndex := 0,
          diagnostics :=
            ⟨strS ("No"), strS ("N/A"), strS ("N/A"), strS ("N/A")⟩ } :=
  spec_C8_amended (strS ("hello")) (by decide)

/-! ## C5: regeneration mutates the tree (internalKey assignment) -/

/-- C5 counterexample — regenerating a tree holding one group without an
`internalKey` assigns `AutoLabel1` to it: the preorder key list of the
returned tree differs from the input's, so regeneration does not leave
the tree unchanged (the source writes `node.internalKey = …` on the live
node; the editor-created group `{id, type, name, parent, children}` has
none).  The call errors for lack of `Outputs`/`ViewInfo`, and the
mutation has already happened regardless. -/
theorem spec_C5_counterexample :
    groupIKsList
        (generateSettingFile [PNode.group 1 (strS ("G")) none none []]
          [] [] [] [] [] 0).2 ≠
      groupIKsList [PNode.group 1 (strS ("G")) none none []] := by
  decide

mutual
theorem genNode_keyed_id (depth : Nat) (acc : GenAcc) :
    ∀ n : PNode, nodeKeyed n = true → (genNode depth acc n).2 = n
  | .page _ _, _ => rfl
  | .control _ _ _ _, _ => rfl
  | .separator _ _ _, _ => rfl
  | .group i name ik d cs, h => by
    simp only [nodeKeyed, Bool.and_eq_true] at h
    obtain ⟨hik, hcs⟩ := h
    match ik, hik with
    | some k, hik =>
      have hk : (!List.isEmpty k) = true := by simpa using hik
      simp only [genNode, hk, if_true]
      exact congrArg (PNode.group i name (some k) d)
        (genNodes_keyed_id _ _ cs hcs)
theorem genNodes_keyed_id (depth : Nat) (acc : GenAcc) :
    ∀ ns : List PNode, nodesKeyed ns = true → (genNodes depth acc ns).2 = ns
  | [], _ => rfl
  | n :: ns, h => by
    simp only [nodesKeyed, Bool.and_eq_true] at h
    obtain ⟨hn, hns⟩ := h
    simp only [genNodes]
    rw [genNode_keyed_id depth acc n hn,
      genNodes_keyed_id depth (genNode depth acc n).1 ns hns]
end

/-- C5 (amended) — regeneration reads the tree and the original
parse-inputs and computes a fresh output; the only field it writes is a
group's `internalKey`, and only when that key is falsy.  For every tree
whose groups all carry a truthy `internalKey`, the returned tree is
exactly the input tree (and the Lean model's string inputs are values, so
nothing else can be mutated). -/
theorem spec_C5_amended (tree : List PNode) (oc f n t ot : Str) (mx : Nat)
    (h : nodesKeyed tree = true) :
    (generateSettingFile tree oc f n t ot mx).2 = tree := by
  have hsnd : (generateSettingFile tree oc f n t ot mx).2 =
      (genNodes 0 ⟨max mx (scanMaxList tree) + 1, 1, none, [], [], []⟩ tree).2 := by
    cases h1 : findFirstTopLevelBlock (hostGroupBody oc n t) outputsHeaders with
    | none => simp [generateSettingFile, h1]
    | some ob =>
      cases h2 : findFirstTopLevelBlock (hostGroupBody oc n t) viewInfoHeaders with
      | none => simp [generateSettingFile, h1, h2]
      | some vb => simp [generateSettingFile, h1, h2]
  rw [hsnd, genNodes_keyed_id 0 _ tree h]

/-- Witness for C5's amended statement: a tree whose single group already
carries `AutoLabel3` passes through regeneration untouched. -/
theorem spec_C5_witness :
    (generateSettingFile
        [PNode.group 1 (strS ("G")) (some (strS ("AutoLabel3"))) none []]
        [] [] [] [] [] 0).2 =
      [PNode.group 1 (strS ("G")) (some (strS ("AutoLabel3"))) none []] :=
  spec_C5_amended
    [PNode.group 1 (strS ("G")) (some (strS ("AutoLabel3"))) none []]
    [] [] [] [] [] 0 (by decide)

/-! ## C6: label collision avoidance -/

lemma natOfDigits_append_digit (xs : Str) (d : Char) :
    natOfDigits (xs ++ [d]) = 10 * natOfDigits xs + (d.toNat - 48) := by
  simp [natOfDigits, List.foldl_append, Nat.mul_comm]

lemma digitChar_isDigit {r : Nat} (h : r < 10) :
    (Nat.digitChar r).isDigit = true := by
  interval_cases r <;> decide

lemma digitChar_toNat {r : Nat} (h : r < 10) :
    (Nat.digitChar r).toNat - 48 = r := by
  interval_cases r <;> decide

lemma natStrGo_spec :
    ∀ (fuel n : Nat), n < fuel →
      natStrGo fuel n ≠ [] ∧ (natStrGo fuel n).all Char.isDigit = true ∧
        natOfDigits (natStrGo fuel n) = n := by
  intro fuel
  induction fuel with
  | zero => intro n h; omega
  | succ fuel ih =>
    intro n h
    by_cases h10 : n < 10
    · refine ⟨by simp [natStrGo, h10], ?_, ?_⟩
      · simp [natStrGo, h10, digitChar_isDigit h10]
      · simp [natStrGo, h10, natOfDigits, digitChar_toNat h10]
    · have hdiv : n / 10 < fuel := by
        have h1 : n / 10 < n := Nat.div_lt_self (by omega) (by omega)
        omega
      obtain ⟨ih1, ih2, ih3⟩ := ih (n / 10) hdiv
      have hmod : n % 10 < 10 := Nat.mod_lt n (by omega)
      refine ⟨by simp [natStrGo, h10], ?_, ?_⟩
      · simp only [natStrGo, if_neg h10, List.all_append, ih2, Bool.true_and]
        simp [digitChar_isDigit hmod]
      · simp only [natStrGo, if_neg h10]
        rw [natOfDigits_append_digit, ih3, digitChar_toNat hmod]
        omega

lemma natStr_spec (n : Nat) :
    natStr n ≠ [] ∧ (natStr n).all Char.isDigit = true ∧
      natOfDigits (natStr n) = n :=
  natStrGo_spec (n + 1) n (by omega)

lemma parseAutoLabel_natStr (c : Nat) :
    parseAutoLabel (strS ("AutoLabel") ++ natStr c) = some c := by
  obtain ⟨h1, h2, h3⟩ := natStr_spec c
  have hpre : (strS ("AutoLabel")).isPrefixOf
      (strS ("AutoLabel") ++ natStr c) = true := by
    rw [List.isPrefixOf_iff_prefix]
    exact List.prefix_append _ _
  have hdrop : (strS ("AutoLabel") ++ natStr c).drop 9 = natStr c := by
    have : (strS ("AutoLabel")).length = 9 := by decide
    rw [← this, List.drop_left]
  simp only [parseAutoLabel, hpre, if_true, hdrop]
  simp [List.isEmpty_iff, h1, h2, h3]

lemma countKeyless_cons (o : Option Str) (rest : List (Option Str)) :
    countKeyless (o :: rest) =
      (if isKeyless o then 1 else 0) + countKeyless rest := by
  by_cases h : isKeyless o = true <;> simp [countKeyless, h, Nat.add_comm]

lemma countKeyless_append (a b : List (Option Str)) :
    countKeyless (a ++ b) = countKeyless a + countKeyless b := by
  simp [countKeyless, List.filter_append]

lemma patchKeys_append (c : Nat) (a b : List (Option Str)) :
    patchKeys c (a ++ b) = patchKeys c a ++ patchKeys (c + countKeyless a) b := by
  induction a generalizing c with
  | nil => simp [patchKeys, countKeyless]
  | cons o rest ih =>
    cases o with
    | none =>
      simp only [List.cons_append, patchKeys, List.append_eq]
      rw [ih (c + 1), countKeyless_cons]
      have h2 : c + ((if isKeyless none then 1 else 0) + countKeyless rest) =
          c + 1 + countKeyless rest := by simp [isKeyless]; omega
      rw [h2]
    | some k =>
      by_cases hk : k.isEmpty = true
      · simp only [List.cons_append, patchKeys, hk, if_true, List.append_eq]
        rw [ih (c + 1), countKeyless_cons]
        have h2 : c + ((if isKeyless (some k) then 1 else 0) + countKeyless rest) =
            c + 1 + countKeyless rest := by simp [isKeyless, hk]; omega
        rw [h2]
      · simp only [List.cons_append, patchKeys, hk, Bool.false_eq_true,
          if_false, List.append_eq]
        rw [ih c, countKeyless_cons]
        have h2 : c + ((if isKeyless (some k) then 1 else 0) + countKeyless rest) =
            c + countKeyless rest := by simp [isKeyless, hk]
        rw [h2]

mutual
theorem genNode_keys (depth : Nat) (acc : GenAcc) :
    ∀ n : PNode,
      groupIKsNode (genNode depth acc n).2 =
        patchKeys acc.autoLabelCounter (groupIKsNode n) ∧
      (genNode depth acc n).1.autoLabelCounter =
        acc.autoLabelCounter + countKeyless (groupIKsNode n)
  | .page _ _ => ⟨rfl, by simp [genNode, groupIKsNode, countKeyless, patchKeys]⟩
  | .control _ _ _ _ =>
    ⟨rfl, by simp [genNode, groupIKsNode, countKeyless, patchKeys]⟩
  | .separator _ _ _ =>
    ⟨rfl, by simp [genNode, groupIKsNode, countKeyless, patchKeys]⟩
  | .group i name ik d cs => by
    have hrec := fun acc1 => genNodes_keys (depth + 1) acc1 cs
    cases ik with
    | none =>
      constructor
      · simp only [genNode, groupIKsNode]
        rw [(hrec _).1]
        simp [patchKeys]
      · simp only [genNode]
        rw [(hrec _).2]
        simp only [groupIKsNode, countKeyless_cons, isKeyless]
        simp
        omega
    | some k =>
      by_cases hk : k.isEmpty = true
      · constructor
        · simp only [genNode, groupIKsNode, hk, Bool.not_true, Bool.false_eq_true,
            if_false]
          rw [(hrec _).1]
          simp [patchKeys, hk]
        · simp only [genNode, hk, Bool.not_true, Bool.false_eq_true, if_false]
          rw [(hrec _).2]
          simp only [groupIKsNode, countKeyless_cons, isKeyless, hk]
          simp
          omega
      · have hk' : (!k.isEmpty) = true := by simp [hk]
        constructor
        · simp only [genNode, groupIKsNode, hk', if_true]
          rw [(hrec _).1]
          simp [patchKeys, hk]
        · simp only [genNode, hk', if_true]
          rw [(hrec _).2]
          simp only [groupIKsNode, countKeyless_cons, isKeyless, hk]
          simp
theorem genNodes_keys (depth : Nat) (acc : GenAcc) :
    ∀ ns : List PNode,
      groupIKsList (genNodes depth acc ns).2 =
        patchKeys acc.autoLabelCounter (groupIKsList ns) ∧
      (genNodes depth acc ns).1.autoLabelCounter =
        acc.autoLabelCounter + countKeyless (groupIKsList ns)
  | [] => ⟨rfl, by simp [genNodes, groupIKsList, countKeyless, patchKeys]⟩
  | n :: ns => by
    obtain ⟨e1, e2⟩ := genNode_keys depth acc n
    obtain ⟨f1, f2⟩ := genNodes_keys depth (genNode depth acc n).1 ns
    constructor
    · simp only [genNodes, groupIKsList]
      rw [e1, f1, e2, patchKeys_append]
    · simp only [genNodes, groupIKsList]
      rw [f2, e2, countKeyless_append]
      omega
end

lemma newLabelIndices_cons (o o2 : Option Str)
    (rest rest2 : List (Option Str)) :
    newLabelIndices (o :: rest) (o2 :: rest2) =
      (if isKeyless o then o2.bind parseAutoLabel else none).toList ++
        newLabelIndices rest rest2 := by
  cases h : (if isKeyless o then o2.bind parseAutoLabel else none) with
  | none => simp [newLabelIndices, List.zip_cons_cons, List.filterMap_cons, h]
  | some v => simp [newLabelIndices, List.zip_cons_cons, List.filterMap_cons, h]

lemma newLabelIndices_patchKeys (ks : List (Option Str)) :
    ∀ c : Nat, newLabelIndices ks (patchKeys c ks) =
      List.range' c (countKeyless ks) := by
  induction ks with
  | nil => intro c; simp [newLabelIndices, patchKeys, countKeyless]
  | cons o rest ih =>
    intro c
    cases o with
    | none =>
      rw [show patchKeys c (none :: rest) =
          some (strS ("AutoLabel") ++ natStr c) :: patchKeys (c + 1) rest
        from rfl, newLabelIndices_cons]
      rw [show (if isKeyless (none : Option Str) then
            (some (strS ("AutoLabel") ++ natStr c)).bind parseAutoLabel
          else none) = some c from by simp [isKeyless, parseAutoLabel_natStr]]
      rw [ih (c + 1), countKeyless_cons]
      simp only [isKeyless, if_true]
      rw [Nat.add_comm 1 (countKeyless rest), List.range'_succ]
      rfl
    | some k =>
      by_cases hk : k.isEmpty = true
      · rw [show patchKeys c (some k :: rest) =
            some (strS ("AutoLabel") ++ natStr c) :: patchKeys (c + 1) rest
          from by simp [patchKeys, hk], newLabelIndices_cons]
        rw [show (if isKeyless (some k) then
              (some (strS ("AutoLabel") ++ natStr c)).bind parseAutoLabel
            else none) = some c from by
          simp [isKeyless, hk, parseAutoLabel_natStr]]
        rw [ih (c + 1), countKeyless_cons]
        simp only [isKeyless, hk, if_true]
        rw [Nat.add_comm 1 (countKeyless rest), List.range'_succ]
        rfl
      · rw [show patchKeys c (some k :: rest) =
            some k :: patchKeys c rest from by simp [patchKeys, hk],
          newLabelIndices_cons]
        rw [show (if isKeyless (some k) then
              (some k).bind parseAutoLabel else none) = none from by
          simp [isKeyless, hk]]
        rw [ih c, countKeyless_cons]
        simp [isKeyless, hk]

lemma generateSettingFile_snd (tree : List PNode) (oc f n t ot : Str)
    (mx : Nat) :
    (generateSettingFile tree oc f n t ot mx).2 =
      (genNodes 0 ⟨max mx (scanMaxList tree) + 1, 1, none, [], [], []⟩ tree).2 := by
  cases h1 : findFirstTopLevelBlock (hostGroupBody oc n t) outputsHeaders with
  | none => simp [generateSettingFile, h1]
  | some ob =>
    cases h2 : findFirstTopLevelBlock (hostGroupBody oc n t) viewInfoHeaders with
    | none => simp [generateSettingFile, h1, h2]
    | some vb => simp [generateSettingFile, h1, h2]

/-- C6 — Label collision avoidance: with `M` the maximum auto-label index
over both the parsed metadata counter and the `AutoLabel` keys of groups
already in the tree, the labels newly assigned during one regeneration
are exactly `M+1, M+2, …` in preorder: every new index exceeds `M` and
successive assignments strictly increase. -/
theorem spec_C6 (tree : List PNode) (oc f n t ot : Str) (mx : Nat) :
    newLabelIndices (groupIKsList tree)
        (groupIKsList (generateSettingFile tree oc f n t ot mx).2) =
      List.range' (max mx (scanMaxList tree) + 1)
        (countKeyless (groupIKsList tree)) ∧
    (∀ v ∈ newLabelIndices (groupIKsList tree)
        (groupIKsList (generateSettingFile tree oc f n t ot mx).2),
      max mx (scanMaxList tree) < v) ∧
    List.Pairwise (· < ·)
      (newLabelIndices (groupIKsList tree)
        (groupIKsList (generateSettingFile tree oc f n t ot mx).2)) := by
  have he : newLabelIndices (groupIKsList tree)
      (groupIKsList (generateSettingFile tree oc f n t ot mx).2) =
      List.range' (max mx (scanMaxList tree) + 1)
        (countKeyless (groupIKsList tree)) := by
    rw [generateSettingFile_snd,
      (genNodes_keys 0 ⟨max mx (scanMaxList tree) + 1, 1, none, [], [], []⟩ tree).1]
    exact newLabelIndices_patchKeys (groupIKsList tree) _
  refine ⟨he, ?_, ?_⟩
  · intro v hv
    rw [he] at hv
    have := List.mem_range'_1.mp hv
    omega
  · rw [he]
    exact List.pairwise_lt_range' _ _

/-! ## C9: rename regeneration -/

lemma countOccur_append_safe (pat : Str) :
    ∀ (A B : Str), pat ≠ [] →
      (∀ c, A.getLast? = some c → c ∉ pat) →
      countOccur pat (A ++ B) = countOccur pat A + countOccur pat B := by
  intro A
  induction A with
  | nil => intro B _ _; simp [countOccur]
  | cons c A' ih =>
    intro B hne h
    have hA' : ∀ x, A'.getLast? = some x → x ∉ pat := by
      intro x hx
      apply h
      cases A' with
      | nil => simp at hx
      | cons d A'' => rw [List.getLast?_cons_cons]; exact hx
    have hiff : pat.isPrefixOf (c :: (A' ++ B)) = pat.isPrefixOf (c :: A') := by
      cases hp : pat.isPrefixOf (c :: A') with
      | true =>
        have hpre : pat <+: (c :: A') ++ B :=
          (List.isPrefixOf_iff_prefix.mp hp).trans (List.prefix_append _ _)
        rw [List.cons_append] at hpre
        exact List.isPrefixOf_iff_prefix.mpr hpre
      | false =>
        cases hq : pat.isPrefixOf (c :: (A' ++ B)) with
        | false => rfl
        | true =>
          exfalso
          have hpre : pat <+: (c :: A') ++ B := by
            rw [List.cons_append]
            exact List.isPrefixOf_iff_prefix.mp hq
          by_cases hlen : pat.length ≤ (c :: A').length
          · have h1 : pat = ((c :: A') ++ B).take pat.length :=
              List.prefix_iff_eq_take.mp hpre
            rw [List.take_append_eq_append_take] at h1
            have h0 : pat.length - (c :: A').length = 0 := by omega
            rw [h0, List.take_zero, List.append_nil] at h1
            have hps : pat <+: (c :: A') := by
              rw [h1]; exact List.take_prefix _ _
            rw [List.isPrefixOf_iff_prefix.mpr hps] at hp
            simp at hp
          · have hshort : (c :: A') <+: pat :=
              List.prefix_of_prefix_length_le (List.prefix_append _ _) hpre
                (by omega)
            have hx : (c :: A').getLast? =
                some ((c :: A').getLast (by simp)) :=
              List.getLast?_eq_getLast _ _
            exact h _ hx (hshort.subset (List.getLast_mem _))
    rw [List.cons_append]
    show countOccur pat (c :: (A' ++ B)) =
      countOccur pat (c :: A') + countOccur pat B
    simp only [countOccur]
    rw [ih B hne hA', hiff]
    cases hp2 : pat.isPrefixOf (c :: A')
    · simp [hp2]
    · simp [hp2]
      omega

lemma countOccur_prepend (pat : Str) (hd : Char)
    (hhd : pat.head? = some hd) :
    ∀ (P B : Str), hd ∉ P →
      countOccur pat (P ++ B) = countOccur pat B := by
  intro P
  induction P with
  | nil => intro B _; simp
  | cons c P' ih =>
    intro B hmem
    have hc : c ≠ hd := by
      intro he; exact hmem (by simp [he])
    have hchunk : pat.isPrefixOf (c :: (P' ++ B)) = false := by
      cases hq : pat.isPrefixOf (c :: (P' ++ B)) with
      | false => rfl
      | true =>
        exfalso
        have hpre : pat <+: c :: (P' ++ B) := List.isPrefixOf_iff_prefix.mp hq
        cases pat with
        | nil => simp at hhd
        | cons p0 prest =>
          have hp0 : p0 = hd := by simpa using hhd
          obtain ⟨t, ht⟩ := hpre
          rw [List.cons_append] at ht
          have : p0 = c := by
            have := congrArg (fun l => l.head?) ht
            simpa using this
          exact hc (by rw [← this, hp0])
    rw [List.cons_append]
    show countOccur pat (c :: (P' ++ B)) = countOccur pat B
    simp only [countOccur, hchunk]
    simpa using ih B (fun hm => hmem (by simp [hm]))

lemma countOccur_dropWhile_le (pat : Str) (p : Char → Bool) :
    ∀ s : Str, countOccur pat (s.dropWhile p) ≤ countOccur pat s := by
  intro s
  induction s with
  | nil => simp [List.dropWhile]
  | cons c rest ih =>
    by_cases hc : p c = true
    · have : countOccur pat rest ≤ countOccur pat (c :: rest) := by
        simp only [countOccur]; omega
      calc countOccur pat ((c :: rest).dropWhile p)
          = countOccur pat (rest.dropWhile p) := by simp [List.dropWhile, hc]
        _ ≤ countOccur pat rest := ih
        _ ≤ countOccur pat (c :: rest) := this
    · simp [List.dropWhile, hc]

lemma ucLine_last (ik : Str) (dc nl : Nat) (name : Str) :
    (ucLine ik dc nl name).getLast? = some ',' := by
  unfold ucLine
  rw [List.getLast?_append_of_ne_nil _ (by decide)]
  decide

lemma uciLine_last (ik : Str) : (uciLine ik).getLast? = some ',' := by
  unfold uciLine
  rw [List.getLast?_append_of_ne_nil _ (by decide)]
  decide

mutual
theorem genNode_lines (depth : Nat) (acc : GenAcc) :
    ∀ n : PNode,
      (∀ l ∈ acc.userControls, l.getLast? = some ',') →
      (∀ l ∈ acc.userControlInputs, l.getLast? = some ',') →
      (∀ l ∈ (genNode depth acc n).1.userControls, l.getLast? = some ',') ∧
      (∀ l ∈ (genNode depth acc n).1.userControlInputs, l.getLast? = some ',')
  | .page _ _, h1, h2 => ⟨h1, h2⟩
  | .control _ _ _ _, h1, h2 => ⟨h1, h2⟩
  | .separator _ _ _, h1, h2 => ⟨h1, h2⟩
  | .group i name ik d cs, h1, h2 => by
    apply genNodes_lines (depth + 1) _ cs
    · intro l hl
      simp only [List.mem_append, List.mem_singleton] at hl
      rcases hl with hl | hl
      · exact h1 l hl
      · rw [hl]; exact ucLine_last _ _ _ _
    · intro l hl
      simp only [List.mem_append, List.mem_singleton] at hl
      rcases hl with hl | hl
      · exact h2 l hl
      · rw [hl]; exact uciLine_last _
theorem genNodes_lines (depth : Nat) (acc : GenAcc) :
    ∀ ns : List PNode,
      (∀ l ∈ acc.userControls, l.getLast? = some ',') →
      (∀ l ∈ acc.userControlInputs, l.getLast? = some ',') →
      (∀ l ∈ (genNodes depth acc ns).1.userControls, l.getLast? = some ',') ∧
      (∀ l ∈ (genNodes depth acc ns).1.userControlInputs, l.getLast? = some ',')
  | [], h1, h2 => ⟨h1, h2⟩
  | n :: ns, h1, h2 => by
    obtain ⟨g1, g2⟩ := genNode_lines depth acc n h1 h2
    exact genNodes_lines depth (genNode depth acc n).1 ns g1 g2
end

lemma joinSep_last (lines : List Str)
    (h : ∀ l ∈ lines, l.getLast? = some ',') :
    joinSep (strS ("\n")) lines = [] ∨
      (joinSep (strS ("\n")) lines).getLast? = some ',' := by
  induction lines with
  | nil => left; rfl
  | cons x xs ih =>
    cases xs with
    | nil =>
      right
      have := h x (by simp)
      simpa [joinSep] using this
    | cons y ys =>
      right
      have hxs : ∀ l ∈ y :: ys, l.getLast? = some ',' :=
        fun l hl => h l (by simp [hl])
      rcases ih hxs with hj | hj
      · have hy := hxs y (by simp)
        cases hy2 : (y : Str) with
        | nil => rw [hy2] at hy; simp at hy
        | cons a as =>
          exfalso
          have : joinSep (strS ("\n")) (y :: ys) ≠ [] := by
            cases ys with
            | nil => rw [hy2]; simp [joinSep]
            | cons z zs => simp [joinSep, hy2]
          exact this hj
      · have hne : joinSep (strS ("\n")) (y :: ys) ≠ [] := by
          intro he; rw [he] at hj; simp at hj
        show (x ++ strS ("\n") ++ joinSep (strS ("\n")) (y :: ys)).getLast? =
          some ','
        rw [List.getLast?_append_of_ne_nil _ hne]
        exact hj

lemma getLast?_append_right (A B : Str) (c : Char)
    (hB : B.getLast? = some c) : (A ++ B).getLast? = some c := by
  have hne : B ≠ [] := by intro he; rw [he] at hB; simp at hB
  rw [List.getLast?_append_of_ne_nil _ hne]; exact hB

set_option maxRecDepth 8192 in
lemma helperNodeText_count (uciJ ucJ : Str)
    (h1 : countOccur helperHeader uciJ = 0)
    (h2 : countOccur helperHeader ucJ = 0)
    (hu1 : uciJ = [] ∨ uciJ.getLast? = some ',')
    (hu2 : ucJ = [] ∨ ucJ.getLast? = some ',') :
    countOccur helperHeader (helperNodeText uciJ ucJ) = 1 := by
  have hne : helperHeader ≠ [] := by decide
  have hc1 : helperChunk1.getLast? = some '\n' := by decide
  have hc2 : helperChunk2.getLast? = some '\n' := by decide
  have hnl : ('\n' : Char) ∉ helperHeader := by decide
  have hcm : (',' : Char) ∉ helperHeader := by decide
  have g2 : ∀ c, (helperChunk1 ++ uciJ).getLast? = some c →
      c ∉ helperHeader := by
    intro c hc
    rcases hu1 with hu | hu
    · rw [hu, List.append_nil, hc1] at hc
      injection hc with hc; rw [← hc]; exact hnl
    · rw [getLast?_append_right _ _ _ hu] at hc
      injection hc with hc; rw [← hc]; exact hcm
  have g3 : ∀ c, ((helperChunk1 ++ uciJ) ++ helperChunk2).getLast? = some c →
      c ∉ helperHeader := by
    intro c hc
    rw [getLast?_append_right _ _ _ hc2] at hc
    injection hc with hc; rw [← hc]; exact hnl
  have g4 : ∀ c,
      (((helperChunk1 ++ uciJ) ++ helperChunk2) ++ ucJ).getLast? = some c →
      c ∉ helperHeader := by
    intro c hc
    rcases hu2 with hu | hu
    · rw [hu, List.append_nil] at hc
      exact g3 c hc
    · rw [getLast?_append_right _ _ _ hu] at hc
      injection hc with hc; rw [← hc]; exact hcm
  have g1 : ∀ c, helperChunk1.getLast? = some c → c ∉ helperHeader := by
    intro c hc
    rw [hc1] at hc; injection hc with hc; rw [← hc]; exact hnl
  show countOccur helperHeader
    ((((helperChunk1 ++ uciJ) ++ helperChunk2) ++ ucJ) ++ helperChunk3) = 1
  rw [countOccur_append_safe _ _ _ hne g4,
    countOccur_append_safe _ _ _ hne g3,
    countOccur_append_safe _ _ _ hne g2,
    countOccur_append_safe _ _ _ hne g1, h1, h2]
  have e1 : countOccur helperHeader helperChunk1 = 1 := by decide
  have e2 : countOccur helperHeader helperChunk2 = 0 := by decide
  have e3 : countOccur helperHeader helperChunk3 = 0 := by decide
  rw [e1, e2, e3]

lemma idxOfAux_isPrefix (pat : Str) :
    ∀ (s : Str) (i : Nat), idxOfAux pat s = some i →
      pat.isPrefixOf (s.drop i) = true := by
  intro s
  induction s with
  | nil =>
    intro i h
    unfold idxOfAux at h
    by_cases hp : pat.isPrefixOf ([] : Str) = true
    · rw [if_pos hp] at h
      injection h with h
      rw [← h]; exact hp
    · rw [if_neg hp] at h; exact absurd h (by simp)
  | cons c rest ih =>
    intro i h
    unfold idxOfAux at h
    by_cases hp : pat.isPrefixOf (c :: rest) = true
    · rw [if_pos hp] at h
      injection h with h
      rw [← h]; exact hp
    · rw [if_neg hp] at h
      cases hj : idxOfAux pat rest with
      | none => rw [hj] at h; exact Option.noConfusion h
      | some j =>
        rw [hj] at h
        have h2 : j + 1 = i := by
          have : (idxOfAux pat rest).map Nat.succ = some (j + 1) := by
            rw [hj]; rfl
          rw [hj] at this
          rw [this] at h
          injection h
        rw [← h2, List.drop_succ_cons]
        exact ih j hj

lemma indentFirstLine_eq (text indent : Str) :
    indentFirstLine text indent = indent ++ text := by
  unfold indentFirstLine
  cases h : idxOfFrom text ['\n'] 0 with
  | none => rfl
  | some nl =>
    have h' : idxOfAux ['\n'] text = some nl := by
      unfold idxOfFrom at h
      rw [List.drop_zero] at h
      cases hj : idxOfAux ['\n'] text with
      | none => rw [hj] at h; exact Option.noConfusion h
      | some j =>
        rw [hj] at h
        have h2 : j + 0 = nl := by
          have : (some j).map (fun x => x + 0) = some (j + 0) := rfl
          rw [this] at h
          injection h
        have h3 : j = nl := by omega
        rw [h3]
    have hpre := idxOfAux_isPrefix ['\n'] text nl h'
    rw [List.isPrefixOf_iff_prefix] at hpre
    obtain ⟨t, ht⟩ := hpre
    have ht2 : t = text.drop (nl + 1) := by
      have htl : ('\n' :: t).tail = (text.drop nl).tail := by
        rw [show ('\n' :: t) = ['\n'] ++ t from rfl, ht]
      simpa [List.tail_drop] using htl
    have hdrop : text.drop nl = '\n' :: text.drop (nl + 1) := by
      rw [← ht, ht2]; rfl
    show indent ++ text.take nl ++ '\n' :: text.drop (nl + 1) = indent ++ text
    rw [← hdrop, List.append_assoc, List.take_append_drop]

/-- C10 — Exactly one helper node in the regenerated Tools block: the
writer removes the first pre-existing helper block (identified by its
fixed header) from the original tools text, then prepends the freshly
generated helper node, which is therefore always the first tool; when the
cleaned original tools contain no further occurrence of the helper header
(true for every file whose tools held at most one helper block) and the
group names/keys do not themselves spell the header (the two join
hypotheses), the regenerated Tools content contains the helper header
exactly once, so repeated parse/edit/regenerate cycles cannot accumulate
helper nodes. -/
theorem spec_C10 (tree : List PNode) (originalTools : Str) (mx : Nat)
    (h1 : countOccur helperHeader
      (joinSep (strS ("\n"))
        (genNodes 0 ⟨max mx (scanMaxList tree) + 1, 1, none, [], [], []⟩
          tree).1.userControls) = 0)
    (h2 : countOccur helperHeader
      (joinSep (strS ("\n"))
        (genNodes 0 ⟨max mx (scanMaxList tree) + 1, 1, none, [], [], []⟩
          tree).1.userControlInputs) = 0)
    (h3 : countOccur helperHeader (cleanedToolsOf originalTools) = 0) :
    countOccur helperHeader
        (newToolsBlockContentOf
          (helperNodeText
            (joinSep (strS ("\n"))
              (genNodes 0 ⟨max mx (scanMaxList tree) + 1, 1, none, [], [], []⟩
                tree).1.userControlInputs)
            (joinSep (strS ("\n"))
              (genNodes 0 ⟨max mx (scanMaxList tree) + 1, 1, none, [], [], []⟩
                tree).1.userControls))
          (cleanedToolsOf originalTools)) = 1 ∧
    helperNodeText
        (joinSep (strS ("\n"))
          (genNodes 0 ⟨max mx (scanMaxList tree) + 1, 1, none, [], [], []⟩
            tree).1.userControlInputs)
        (joinSep (strS ("\n"))
          (genNodes 0 ⟨max mx (scanMaxList tree) + 1, 1, none, [], [], []⟩
            tree).1.userControls) <+:
      newToolsBlockContentOf
        (helperNodeText
          (joinSep (strS ("\n"))
            (genNodes 0 ⟨max mx (scanMaxList tree) + 1, 1, none, [], [], []⟩
              tree).1.userControlInputs)
          (joinSep (strS ("\n"))
            (genNodes 0 ⟨max mx (scanMaxList tree) + 1, 1, none, [], [], []⟩
              tree).1.userControls))
        (cleanedToolsOf originalTools) ∧
    (∀ b, findBlockContent originalTools helperHeader 0 = some b →
      cleanedToolsOf originalTools =
        originalTools.take b.startIndex ++ originalTools.drop b.endIndex) ∧
    (findBlockContent originalTools helperHeader 0 = none →
      cleanedToolsOf originalTools = originalTools) := by
  obtain ⟨hlc, hli⟩ := genNodes_lines 0
    ⟨max mx (scanMaxList tree) + 1, 1, none, [], [], []⟩ tree
    (by intro l hl; simp at hl) (by intro l hl; simp at hl)
  have hu2 := joinSep_last _ hlc
  have hu1 := joinSep_last _ hli
  have hH : countOccur helperHeader
      (helperNodeText
        (joinSep (strS ("\n"))
          (genNodes 0 ⟨max mx (scanMaxList tree) + 1, 1, none, [], [], []⟩
            tree).1.userControlInputs)
        (joinSep (strS ("\n"))
          (genNodes 0 ⟨max mx (scanMaxList tree) + 1, 1, none, [], [], []⟩
            tree).1.userControls)) = 1 :=
    helperNodeText_count _ _ h2 h1 hu1 hu2
  have hHlast : ∀ c,
      (helperNodeText
        (joinSep (strS ("\n"))
          (genNodes 0 ⟨max mx (scanMaxList tree) + 1, 1, none, [], [], []⟩
            tree).1.userControlInputs)
        (joinSep (strS ("\n"))
          (genNodes 0 ⟨max mx (scanMaxList tree) + 1, 1, none, [], [], []⟩
            tree).1.userControls)).getLast? = some c → c ∉ helperHeader := by
    intro c hc
    unfold helperNodeText at hc
    rw [getLast?_append_right _ _ '\x7d' (by decide)] at hc
    injection hc with hc
    rw [← hc]; decide
  have hne : helperHeader ≠ [] := by decide
  refine ⟨?_, ?_, ?_, ?_⟩
  · unfold newToolsBlockContentOf
    by_cases he : (trimS (cleanedToolsOf originalTools)).isEmpty = true
    · rw [he]; simp only [Bool.not_true, Bool.false_eq_true, if_false]
      exact hH
    · rw [show (trimS (cleanedToolsOf originalTools)).isEmpty = false from by
        simp [he]]
      simp only [Bool.not_false, if_true]
      rw [indentFirstLine_eq]
      rw [countOccur_append_safe _ _ _ hne
        (by
          intro c hc
          rw [getLast?_append_right _ _ '\n' (by decide)] at hc
          injection hc with hc
          rw [← hc]; decide)]
      rw [countOccur_append_safe _ _ _ hne hHlast, hH]
      have hz1 : countOccur helperHeader (strS (",\n")) = 0 := by decide
      have hz2 : countOccur helperHeader
          (strS ("                ") ++ cleanedHeadOf (cleanedToolsOf originalTools)) = 0 := by
        rw [countOccur_prepend helperHeader 'b' (by decide) _ _ (by decide)]
        have hle := countOccur_dropWhile_le helperHeader
          (fun c => isJsSpace c || c = ',') (cleanedToolsOf originalTools)
        unfold cleanedHeadOf
        omega
      rw [hz1, hz2]
  · unfold newToolsBlockContentOf
    by_cases he : (trimS (cleanedToolsOf originalTools)).isEmpty = true
    · rw [he]; simp only [Bool.not_true, Bool.false_eq_true, if_false]
      exact List.prefix_refl _
    · rw [show (trimS (cleanedToolsOf originalTools)).isEmpty = false from by
        simp [he]]
      simp only [Bool.not_false, if_true]
      rw [List.append_assoc]
      exact List.prefix_append _ _
  · intro b hb
    unfold cleanedToolsOf
    rw [hb]
  · intro hb
    unfold cleanedToolsOf
    rw [hb]

/-- Witness for C10 at the empty tree and empty original tools (all three
count hypotheses hold by evaluation). -/
theorem spec_C10_witness :
    countOccur helperHeader
        (newToolsBlockContentOf
          (helperNodeText
            (joinSep (strS ("\n"))
              (genNodes 0 ⟨max 0 (scanMaxList []) + 1, 1, none, [], [], []⟩
                []).1.userControlInputs)
            (joinSep (strS ("\n"))
              (genNodes 0 ⟨max 0 (scanMaxList []) + 1, 1, none, [], [], []⟩
                []).1.userControls))
          (cleanedToolsOf [])) = 1 ∧
    helperNodeText
        (joinSep (strS ("\n"))
          (genNodes 0 ⟨max 0 (scanMaxList []) + 1, 1, none, [], [], []⟩
            []).1.userControlInputs)
        (joinSep (strS ("\n"))
          (genNodes 0 ⟨max 0 (scanMaxList []) + 1, 1, none, [], [], []⟩
            []).1.userControls) <+:
      newToolsBlockContentOf
        (helperNodeText
          (joinSep (strS ("\n"))
            (genNodes 0 ⟨max 0 (scanMaxList []) + 1, 1, none, [], [], []⟩
              []).1.userControlInputs)
          (joinSep (strS ("\n"))
            (genNodes 0 ⟨max 0 (scanMaxList []) + 1, 1, none, [], [], []⟩
              []).1.userControls))
        (cleanedToolsOf []) ∧
    (∀ b, findBlockContent [] helperHeader 0 = some b →
      cleanedToolsOf [] = List.take b.startIndex [] ++ List.drop b.endIndex []) ∧
    (findBlockContent [] helperHeader 0 = none → cleanedToolsOf [] = []) :=
  spec_C10 [] [] 0 (by rfl) (by rfl) (by rfl)

/-! ## C4: regeneration is a fixed skeleton, not verbatim passthrough -/

lemma findBlockContent_content_infix (content m : Str) (st : Nat) (b : Block)
    (h : findBlockContent content m st = some b) : b.content <:+: content := by
  unfold findBlockContent at h
  cases h1 : idxOfFrom content m st with
  | none => rw [h1] at h; exact Option.noConfusion h
  | some i =>
    rw [h1] at h
    dsimp only at h
    cases h2 : scanClose 1 (i + m.length) (content.drop (i + m.length)) with
    | none => rw [h2] at h; exact Option.noConfusion h
    | some e =>
      rw [h2] at h
      injection h with h
      rw [← h]
      refine ⟨content.take (i + m.length),
        (content.drop (i + m.length)).drop (e - (i + m.length)), ?_⟩
      rw [List.append_assoc, List.take_append_drop, List.take_append_drop]

lemma blockStringOf_infix (body : Str) (b : Block) :
    blockStringOf body b <:+: body := by
  refine ⟨body.take b.startIndex,
    (body.drop b.startIndex).drop (b.endIndex - b.startIndex), ?_⟩
  unfold blockStringOf
  rw [List.append_assoc, List.take_append_drop, List.take_append_drop]

lemma hostGroupBody_infix (oc n t : Str) : hostGroupBody oc n t <:+: oc := by
  unfold hostGroupBody
  dsimp only
  cases h : findBlockContent oc
      (formattedName n ++ strS (" = ") ++ t ++ strS (" \x7b")) 0 with
  | none => exact List.infix_refl _
  | some b => exact findBlockContent_content_infix _ _ _ _ h

set_option maxRecDepth 100000 in
/-- C4 counterexample — a file carrying the comment `-- NOTE_XYZ` before
the opening brace and an `Extra = 1` attribute after the operator parses
and regenerates successfully, yet the regenerated output contains no
occurrence of `NOTE_XYZ`: text outside the inputs/helper regions does
not survive regeneration, contradicting the verbatim-passthrough claim. -/
theorem spec_C4_counterexample :
    (let F := strS ("-- NOTE_XYZ\n\x7b\n Tools = ordered() \x7b\n  MyMacro = GroupOperator \x7b\n   Inputs = ordered() \x7b\n    Input1 = InstanceInput \x7b\n     SourceOp = \"T\",\n     Source = \"S\"\n    \x7d\n   \x7d,\n   Outputs = \x7b\n    Out1 = InstanceOutput \x7b \x7d\n   \x7d,\n   ViewInfo = GroupInfo \x7b \x7d,\n   Tools = ordered() \x7b \x7d\n  \x7d\n \x7d,\n Extra = 1\n\x7d")
     countOccur (strS ("NOTE_XYZ")) F = 1 ∧
     ((generateSettingFile (parseSettingFile F).tree F (strS ("f.setting"))
          (parseSettingFile F).mainOperatorName
          (parseSettingFile F).mainOperatorType
          (parseSettingFile F).originalTools
          (parseSettingFile F).maxAutoLabelIndex).1.map
        (fun r => countOccur (strS ("NOTE_XYZ")) r.content)) =
          Except.ok 0) := by
  exact ⟨rfl, rfl⟩

/-- C4 (amended) — regeneration does not splice into the original file:
it synthesizes a fixed skeleton containing only the reconstructed
operator (regenerated `Inputs` and `Tools` blocks plus the operator's
original `Outputs` and `ViewInfo` block strings) and an `ActiveTool`
line.  Of the original text, exactly the `Outputs` and `ViewInfo` block
strings — contiguous substrings of the host operator body, itself a
contiguous substring of the original content — are carried over; all
other original text (content outside the operator, other operator-body
attributes) is dropped. -/
theorem spec_C4_amended (tree : List PNode) (oc f n t ot : Str) (mx : Nat)
    (ob vb : Block)
    (h1 : findFirstTopLevelBlock (hostGroupBody oc n t) outputsHeaders = some ob)
    (h2 : findFirstTopLevelBlock (hostGroupBody oc n t) viewInfoHeaders = some vb) :
    (∃ r, (generateSettingFile tree oc f n t ot mx).1 = Except.ok r ∧
      r.content = finalContentOf n t
        [trimS (newInputsBlockOf tree mx),
         trimS (blockStringOf (hostGroupBody oc n t) ob),
         trimS (blockStringOf (hostGroupBody oc n t) vb),
         trimS (newToolsBlockOf tree ot mx)]) ∧
    blockStringOf (hostGroupBody oc n t) ob <:+: hostGroupBody oc n t ∧
    blockStringOf (hostGroupBody oc n t) vb <:+: hostGroupBody oc n t ∧
    hostGroupBody oc n t <:+: oc := by
  refine ⟨?_, blockStringOf_infix _ _, blockStringOf_infix _ _,
    hostGroupBody_infix _ _ _⟩
  simp only [generateSettingFile, h1, h2]
  exact ⟨_, rfl, rfl⟩

set_option maxRecDepth 100000 in
/-- Witness for C4's amended statement at the concrete commented file. -/
theorem spec_C4_witness :
    (let F := strS ("-- NOTE_XYZ\n\x7b\n Tools = ordered() \x7b\n  MyMacro = GroupOperator \x7b\n   Inputs = ordered() \x7b\n    Input1 = InstanceInput \x7b\n     SourceOp = \"T\",\n     Source = \"S\"\n    \x7d\n   \x7d,\n   Outputs = \x7b\n    Out1 = InstanceOutput \x7b \x7d\n   \x7d,\n   ViewInfo = GroupInfo \x7b \x7d,\n   Tools = ordered() \x7b \x7d\n  \x7d\n \x7d,\n Extra = 1\n\x7d")
     let n := strS ("MyMacro")
     let t := strS ("GroupOperator")
     let ob : Block := ⟨strS ("\n    Out1 = InstanceOutput \x7b \x7d\n   "), 108, 154⟩
     let vb : Block := ⟨strS (" "), 159, 183⟩
     (∃ r, (generateSettingFile [] F [] n t [] 0).1 = Except.ok r ∧
        r.content = finalContentOf n t
          [trimS (newInputsBlockOf [] 0),
           trimS (blockStringOf (hostGroupBody F n t) ob),
           trimS (blockStringOf (hostGroupBody F n t) vb),
           trimS (newToolsBlockOf [] [] 0)]) ∧
      blockStringOf (hostGroupBody F n t) ob <:+: hostGroupBody F n t ∧
      blockStringOf (hostGroupBody F n t) vb <:+: hostGroupBody F n t ∧
      hostGroupBody F n t <:+: F) := by
  exact spec_C4_amended [] _ [] _ _ [] 0 _ _ (by rfl) (by rfl)

/-! ## C2: re-parse round trip -/

lemma pageify_none (acc : GenAcc) (b : Str)
    (h : acc.currentPageName = none) : pageify acc b = b := by
  unfold pageify
  rw [h]

mutual
theorem genNode_blocks (depth : Nat) (acc : GenAcc) :
    ∀ n : PNode, nodePlain n = true → acc.currentPageName = none →
      (genNode depth acc n).1.mainInputs =
          acc.mainInputs ++ emittedBlocksNode n ∧
        (genNode depth acc n).1.currentPageName = none
  | .page _ _, h, _ => absurd h (by simp [nodePlain])
  | .control i d hid ren, h, hp => by
    have hren : ren = false := by simpa [nodePlain] using h
    subst hren
    simp only [genNode, emittedBlocksNode, pageify_none acc _ hp]
    exact ⟨by trivial, hp⟩
  | .separator i d hid, h, hp => by
    have hkey : (!d.key.isEmpty) = true := by simpa [nodePlain] using h
    simp only [genNode, hkey, if_true, emittedBlocksNode,
      pageify_none acc _ hp]
    exact ⟨by trivial, hp⟩
  | .group i name ik d cs, h, hp => by
    simp only [nodePlain, Bool.and_eq_true] at h
    obtain ⟨hik, hcs⟩ := h
    match ik, hik with
    | some k, hik =>
      have hk : (!k.isEmpty) = true := by simpa using hik
      have hrec := genNodes_blocks (depth + 1)
        { acc with
          autoLabelCounter := acc.autoLabelCounter,
          userControls := acc.userControls ++
            [ucLine k (countDescList cs) (depth + 1) name],
          userControlInputs := acc.userControlInputs ++ [uciLine k],
          mainInputs := acc.mainInputs ++
            [pageify acc (groupBlockText
              (match d with
                | some dd => if !dd.key.isEmpty then dd.key else k
                | none => k) k)] }
        cs hcs hp
      simp only [genNode, hk, if_true]
      obtain ⟨e1, e2⟩ := hrec
      refine ⟨?_, e2⟩
      rw [e1]
      simp only [emittedBlocksNode, pageify_none acc _ hp,
        List.append_assoc, List.singleton_append]
theorem genNodes_blocks (depth : Nat) (acc : GenAcc) :
    ∀ ns : List PNode, nodesPlain ns = true → acc.currentPageName = none →
      (genNodes depth acc ns).1.mainInputs =
          acc.mainInputs ++ emittedBlocksList ns ∧
        (genNodes depth acc ns).1.currentPageName = none
  | [], _, hp => by
    simp only [genNodes, emittedBlocksList, List.append_nil]
    exact ⟨by trivial, hp⟩
  | n :: ns, h, hp => by
    simp only [nodesPlain, Bool.and_eq_true] at h
    obtain ⟨hn, hns⟩ := h
    obtain ⟨e1, e2⟩ := genNode_blocks depth acc n hn hp
    obtain ⟨f1, f2⟩ := genNodes_blocks depth (genNode depth acc n).1 ns hns e2
    simp only [genNodes]
    refine ⟨?_, f2⟩
    rw [f1, e1, emittedBlocksList, List.append_assoc]
end

